import Mathlib

/-!
Verification development for the Jaeger UML generator
(`python_version/jaeger_uml_generator`).  The Python sources are shallowly
embedded: dictionaries become association lists with overwrite-on-insert,
sets become duplicate-free lists in insertion order, `uuid4` identifier
allocation becomes a `Nat` counter threaded through the builders, and the
XMI element tree becomes the inductive type `XElem`.  Python's `sorted`
(a stable sort) is modelled by a stable insertion sort.  Tag values are
modelled as strings (the repository only ever consults string-valued tags).
-/

namespace JaegerUml

/-! ## Python dict / set primitives -/

/-- `d.get(k)` on a Python dict: first (unique) binding for `k`. -/
def lookupD {V : Type} : List (String × V) → String → Option V
  | [], _ => none
  | (k', v) :: rest, k => if k' = k then some v else lookupD rest k

/-- `d[k] = v` on a Python dict: overwrite in place, else append. -/
def insertD {V : Type} : List (String × V) → String → V → List (String × V)
  | [], k, v => [(k, v)]
  | (k', v') :: rest, k, v =>
      if k' = k then (k, v) :: rest else (k', v') :: insertD rest k v

/-- `d.update(new)` on a Python dict. -/
def updateD {V : Type} (d new : List (String × V)) : List (String × V) :=
  new.foldl (fun acc kv => insertD acc kv.1 kv.2) d

/-- `s.add(x)` on a Python set (iteration modelled in insertion order). -/
def insertS (s : List String) (x : String) : List String :=
  if x ∈ s then s else s ++ [x]

/-- Stable insertion used by `pySorted`. -/
def insertSorted {α : Type} (le : α → α → Bool) (x : α) : List α → List α
  | [] => [x]
  | y :: ys => if le x y then x :: y :: ys else y :: insertSorted le x ys

/-- Python's stable `sorted(l, key=...)`, as an insertion sort. -/
def pySorted {α : Type} (le : α → α → Bool) (l : List α) : List α :=
  l.foldr (insertSorted le) []

/-- Lexicographic (code-point) comparison on character lists. -/
def charsLe : List Char → List Char → Bool
  | [], _ => true
  | _ :: _, [] => false
  | a :: as, b :: bs =>
      if a.toNat < b.toNat then true
      else if b.toNat < a.toNat then false
      else charsLe as bs

/-- Lexicographic string comparison, as used by `sorted` on names
(Python compares strings by code point). -/
def strLe (a b : String) : Bool := charsLe a.data b.data

/-! ## `utils/name_utils.py` -/

/-- Python regex `\w` (word character), on the ASCII names this repo handles. -/
def isWordChar (c : Char) : Bool := c.isAlphanum || c = '_'

/-- A character the cleaning regex (replace anything but `\w`, dash, slash,
dot with an underscore) leaves in place. -/
def isAllowedChar (c : Char) : Bool :=
  isWordChar c || c = '-' || c = '/' || c = '.'

/-- Python regex `\s` (the whitespace characters Lean's `Char.isWhitespace` covers). -/
def isSpaceChar (c : Char) : Bool := c.isWhitespace

/-- The HTTP verb alternatives of the prefix-stripping regex in `clean_operation_name`. -/
def httpVerbs : List (List Char) :=
  ["GET".data, "POST".data, "PUT".data, "DELETE".data, "PATCH".data,
   "HEAD".data, "OPTIONS".data]

/-- Drop an exact literal from the front of a character list, if present. -/
def dropExact : List Char → List Char → Option (List Char)
  | [], s => some s
  | _, [] => none
  | c :: cs, d :: ds => if c = d then dropExact cs ds else none

/-- One alternative of `^(VERB)\s+`: the verb followed by at least one
whitespace character; on success the verb and the whitespace run are dropped. -/
def tryStripVerb (v s : List Char) : Option (List Char) :=
  match dropExact v s with
  | none => none
  | some rest =>
      match rest with
      | [] => none
      | c :: _ => if isSpaceChar c then some (rest.dropWhile isSpaceChar) else none

/-- `re.sub(r'^(GET|POST|PUT|DELETE|PATCH|HEAD|OPTIONS)\s+', '', s)`. -/
def stripHttpVerb (s : List Char) : List Char :=
  match httpVerbs.findSome? (fun v => tryStripVerb v s) with
  | some r => r
  | none => s

/-- Python `str.strip('_')`: drop leading and trailing underscores. -/
def stripEdges (s : List Char) : List Char :=
  ((s.dropWhile (· = '_')).reverse.dropWhile (· = '_')).reverse

/-- Body of `clean_operation_name`, on character lists: strip a leading HTTP
verb, replace disallowed characters by underscores, strip edge underscores,
and fall back to `"unknown"` when empty. -/
def cleanOperationChars (s : List Char) : List Char :=
  if s = [] then "unknown".data
  else
    if stripEdges ((stripHttpVerb s).map (fun c => if isAllowedChar c then c else '_')) = []
    then "unknown".data
    else stripEdges ((stripHttpVerb s).map (fun c => if isAllowedChar c then c else '_'))

/-- `name_utils.clean_operation_name`. -/
def clean_operation_name (s : String) : String :=
  ⟨cleanOperationChars s.data⟩

/-- Take the part after the last occurrence of `ch` (`rsplit(ch, 1)[-1]`). -/
def afterLast (ch : Char) (l : List Char) : List Char :=
  (l.reverse.takeWhile (· ≠ ch)).reverse

/-- `name_utils.extract_simple_operation_name`. -/
def extract_simple_operation_name (s : String) : String :=
  if s = "" then "unknown"
  else
    let cleaned := (clean_operation_name s).data
    let c1 := if '/' ∈ cleaned then afterLast '/' cleaned else cleaned
    let c2 := if '.' ∈ c1 then afterLast '.' c1 else c1
    if c2 = [] then "unknown" else ⟨c2⟩

/-- A `[a-f0-9]` character of the hash-suffix regex. -/
def isHexLower (c : Char) : Bool := c.isDigit || ('a' ≤ c && c ≤ 'f')

/-- A `[a-z0-9]` character of the hash-suffix regex. -/
def isLowerAlnum (c : Char) : Bool := c.isDigit || ('a' ≤ c && c ≤ 'z')

/-- Whether `-[a-f0-9]{8,}(-[a-z0-9]{5})?$` matches this suffix in full. -/
def tailMatches : List Char → Bool
  | '-' :: rest =>
      let run := rest.takeWhile isHexLower
      let rem := rest.drop run.length
      8 ≤ run.length &&
        (match rem with
         | [] => true
         | '-' :: five => five.length = 5 && five.all isLowerAlnum
         | _ => false)
  | _ => false

/-- Remove the leftmost match of the anchored hash-suffix pattern
(`re.sub` keeps the prefix before the match and the match runs to the end). -/
def stripHashSuffix : List Char → List Char
  | [] => []
  | c :: cs => if tailMatches (c :: cs) then [] else c :: stripHashSuffix cs

/-- `name_utils.extract_base_name`. -/
def extract_base_name (s : String) : String :=
  if s = "" then s else ⟨stripHashSuffix s.data⟩

/-! ## `models/` (Reference, Span, Process, Trace) -/

/-- `models/reference.py` `Reference`. -/
structure Reference where
  refType : String
  traceId : String
  spanId : String
deriving DecidableEq, Repr

/-- `models/span.py` `Span` (the unused `logs` field is omitted; tag values
are modelled as strings). -/
structure Span where
  traceId : String
  spanId : String
  operationName : String
  startTime : Nat
  duration : Nat
  processId : String
  references : List Reference
  tags : List (String × String)
deriving DecidableEq, Repr

/-- `models/process.py` `Process`. -/
structure Process where
  serviceName : String
  tags : List (String × String)
deriving DecidableEq, Repr

/-- `models/trace.py` `Trace` (the unused `warnings` field is omitted). -/
structure Trace where
  traceId : String
  spans : List Span
  processes : List (String × Process)
  sourceName : Option String
deriving DecidableEq, Repr

/-- The loop of `Span.get_parent_span_id`: first `CHILD_OF` reference. -/
def firstChildOfRef : List Reference → Option String
  | [] => none
  | r :: rs => if r.refType = "CHILD_OF" then some r.spanId else firstChildOfRef rs

/-- `Span.get_parent_span_id`. -/
def Span.get_parent_span_id (s : Span) : Option String :=
  firstChildOfRef s.references

/-- `Span.get_tag` (with `default=None`). -/
def Span.get_tag (s : Span) (k : String) : Option String :=
  lookupD s.tags k

/-- `Trace.get_process`. -/
def Trace.get_process (t : Trace) (pid : String) : Option Process :=
  lookupD t.processes pid

/-- `Trace.get_service_name`: empty process id or absent process degrade to
`"unknown"` (a `Span` object itself is always truthy in Python). -/
def Trace.get_service_name (t : Trace) (s : Span) : String :=
  if s.processId = "" then "unknown"
  else
    match t.get_process s.processId with
    | some p => p.serviceName
    | none => "unknown"

/-- The loop of `Trace.get_span`: first span whose id matches. -/
def findSpanById : List Span → String → Option Span
  | [], _ => none
  | s :: ss, sid => if s.spanId = sid then some s else findSpanById ss sid

/-- `Trace.get_span`. -/
def Trace.get_span (t : Trace) (sid : String) : Option Span :=
  findSpanById t.spans sid

/-- `Trace.get_all_service_names`: the set of owning services, sorted. -/
def Trace.get_all_service_names (t : Trace) : List String :=
  pySorted strLe (t.spans.foldl (fun acc sp => insertS acc (t.get_service_name sp)) [])

/-- `Trace.get_spans_sorted_by_time`. -/
def Trace.get_spans_sorted_by_time (t : Trace) : List Span :=
  pySorted (fun a b => decide (a.startTime ≤ b.startTime)) t.spans

/-! ## `analyzer/trace_aggregator.py` -/

/-- The five aggregation maps of `TraceAggregator`. -/
structure AggState where
  allServices : List String
  serviceOperations : List (String × List String)
  serviceDependencies : List (String × List String)
  serviceMetadata : List (String × List (String × String))
  serviceCalls : List (String × List (String × List String))
deriving DecidableEq, Repr

/-- The initial (empty) aggregation state. -/
def emptyAgg : AggState := ⟨[], [], [], [], []⟩

/-- First half of the per-span body of `TraceAggregator._analyze_trace`:
record the service, its operation, and merge the process tags. -/
def analyzeSpanBase (st : AggState) (t : Trace) (sp : Span) : AggState :=
  let svc := t.get_service_name sp
  let st := { st with allServices := insertS st.allServices svc }
  let ops := (lookupD st.serviceOperations svc).getD []
  let st := { st with
    serviceOperations := insertD st.serviceOperations svc (insertS ops sp.operationName) }
  if sp.processId = "" then st
  else
    match t.get_process sp.processId with
    | some p =>
        if p.tags = [] then st
        else
          let md := (lookupD st.serviceMetadata svc).getD []
          { st with serviceMetadata := insertD st.serviceMetadata svc (updateD md p.tags) }
    | none => st

/-- Dependency recording against a resolved parent span id. -/
def analyzeSpanEdgeWith (st : AggState) (t : Trace) (sp : Span) (pid : String) : AggState :=
  let svc := t.get_service_name sp
  match t.get_span pid with
  | none => st
  | some parent =>
      let psvc := t.get_service_name parent
      if svc = psvc then st
      else
        let deps := (lookupD st.serviceDependencies psvc).getD []
        let st := { st with
          serviceDependencies := insertD st.serviceDependencies psvc (insertS deps svc) }
        let calls := (lookupD st.serviceCalls psvc).getD []
        let callOps := (lookupD calls svc).getD []
        { st with
          serviceCalls :=
            insertD st.serviceCalls psvc (insertD calls svc (insertS callOps sp.operationName)) }

/-- Second half of the per-span body: dependency analysis. -/
def analyzeSpanEdges (st : AggState) (t : Trace) (sp : Span) : AggState :=
  match sp.get_parent_span_id with
  | none => st
  | some pid => analyzeSpanEdgeWith st t sp pid

/-- The per-span body of `TraceAggregator._analyze_trace`, as the sequential
composition of its two halves (the second half only reads the service name,
which both halves derive identically). -/
def analyzeSpan (st : AggState) (t : Trace) (sp : Span) : AggState :=
  analyzeSpanEdges (analyzeSpanBase st t sp) t sp

/-- `TraceAggregator._analyze_trace` (returns early on a span-less trace). -/
def analyzeTrace (st : AggState) (t : Trace) : AggState :=
  if t.spans = [] then st
  else t.spans.foldl (fun s sp => analyzeSpan s t sp) st

/-- `TraceAggregator.__init__` + `_analyze` over all traces. -/
def aggregate (traces : List Trace) : AggState :=
  traces.foldl analyzeTrace emptyAgg

/-! ## The XMI element tree (`renderer/xmi_writer.py`)

An element records its XML tag, its `xmi:type` (empty when none is set), its
`name` attribute, its `xmi:id` (a `Nat`; `uuid4` tokens are opaque fresh
identifiers, modelled by a counter — id `0` marks sub-elements the writer
creates without an `xmi:id`), its remaining string attributes, its
identifier-valued reference attributes, and its children in insertion order.
Free text of an `ownedComment` body is carried in the `name` field of a
`body` child. -/

inductive XElem where
  | mk (tag typ name : String) (id : Nat)
       (attrs : List (String × String)) (refs : List (String × Nat))
       (children : List XElem)
deriving Repr

/-- XML tag of an element. -/
def XElem.tag : XElem → String
  | .mk t _ _ _ _ _ _ => t

/-- The `xmi:type` attribute of an element (empty when absent). -/
def XElem.typ : XElem → String
  | .mk _ ty _ _ _ _ _ => ty

/-- The `name` attribute of an element. -/
def XElem.name : XElem → String
  | .mk _ _ n _ _ _ _ => n

/-- The `xmi:id` of an element. -/
def XElem.idn : XElem → Nat
  | .mk _ _ _ i _ _ _ => i

/-- The plain string attributes of an element. -/
def XElem.attrs : XElem → List (String × String)
  | .mk _ _ _ _ a _ _ => a

/-- The identifier-valued reference attributes of an element. -/
def XElem.refs : XElem → List (String × Nat)
  | .mk _ _ _ _ _ r _ => r

/-- The children of an element, in insertion order. -/
def XElem.children : XElem → List XElem
  | .mk _ _ _ _ _ _ cs => cs

mutual

/-- All elements of a tree, the root included. -/
def elemsIn : XElem → List XElem
  | .mk t ty n i a r cs => .mk t ty n i a r cs :: elemsList cs

/-- All elements of a forest. -/
def elemsList : List XElem → List XElem
  | [] => []
  | c :: cs => elemsIn c ++ elemsList cs

end

/-- `XmiWriter.add_comment`: an `ownedComment` with a fresh id and a `body`
child carrying the text. -/
def commentEl (ctr : Nat) (text : String) : XElem :=
  .mk "ownedComment" "" "" ctr [] [] [.mk "body" "" text 0 [] [] []]

/-! ## `generators/sequence_diagram_generator.py` -/

/-- Loop creating one `uml:Class` per service. -/
def seqClassesLoop : List String → Nat → List XElem → List (String × Nat) →
    List XElem × List (String × Nat) × Nat
  | [], ctr, els, ids => (els, ids, ctr)
  | svc :: rest, ctr, els, ids =>
      seqClassesLoop rest (ctr + 1)
        (els ++ [.mk "packagedElement" "uml:Class" svc ctr [] [] []])
        (insertD ids svc ctr)

/-- Loop creating one `ownedAttribute` per service inside the collaboration
(`service_class_ids[service]` always resolves: both loops run over the same
service list, so the `getD 0` default is never taken). -/
def seqPropsLoop : List String → List (String × Nat) → Nat → List XElem →
    List (String × Nat) → List XElem × List (String × Nat) × Nat
  | [], _, ctr, els, ids => (els, ids, ctr)
  | svc :: rest, classIds, ctr, els, ids =>
      let cid := (lookupD classIds svc).getD 0
      seqPropsLoop rest classIds (ctr + 1)
        (els ++ [.mk "ownedAttribute" "" svc ctr [("visibility", "public")] [("type", cid)] []])
        (insertD ids svc ctr)

/-- Loop creating one lifeline per service (`_create_lifeline`, with a
`represents` reference to the collaboration property). -/
def seqLifelinesLoop : List String → List (String × Nat) → Nat → List XElem →
    List (String × Nat) → List XElem × List (String × Nat) × Nat
  | [], _, ctr, els, ids => (els, ids, ctr)
  | svc :: rest, propIds, ctr, els, ids =>
      let pid := (lookupD propIds svc).getD 0
      seqLifelinesLoop rest propIds (ctr + 1)
        (els ++ [.mk "lifeline" "" svc ctr [] [("represents", pid)] []])
        (insertD ids svc ctr)

/-- `span_to_service`: map from span id to owning service over the given spans. -/
def buildSpanToService (t : Trace) (spans : List Span) : List (String × String) :=
  spans.foldl (fun m sp => insertD m sp.spanId (t.get_service_name sp)) []

/-- The standalone generator's span loop: one `Message` (with send/receive
occurrence fragments, named by `clean_operation_name`, plus a duration
comment) per span whose resolvable parent is owned by a different,
non-empty-named service. -/
def seqMsgsLoop : List Span → Trace → List (String × String) → List (String × Nat) →
    Nat → Nat → List XElem → List XElem × Nat
  | [], _, _, _, _, ctr, els => (els, ctr)
  | sp :: rest, t, s2s, llIds, k, ctr, els =>
      let svc := t.get_service_name sp
      match sp.get_parent_span_id with
      | none => seqMsgsLoop rest t s2s llIds k ctr els
      | some pid =>
          match lookupD s2s pid with
          | none => seqMsgsLoop rest t s2s llIds k ctr els
          | some psvc =>
              if psvc = "" ∨ psvc = svc then seqMsgsLoop rest t s2s llIds k ctr els
              else
                match lookupD llIds psvc, lookupD llIds svc with
                | some fl, some tl =>
                    let mname := "msg" ++ toString k
                    let send := XElem.mk "fragment" "uml:MessageOccurrenceSpecification"
                      (mname ++ "_send") ctr [] [("covered", fl)] []
                    let recv := XElem.mk "fragment" "uml:MessageOccurrenceSpecification"
                      (mname ++ "_receive") (ctr + 1) [] [("covered", tl)] []
                    let cop := clean_operation_name sp.operationName
                    let cmt : List XElem :=
                      if 0 < sp.duration
                      then [commentEl (ctr + 3) ("Duration: " ++ toString sp.duration ++ "μs")]
                      else []
                    let msg := XElem.mk "message" "" cop (ctr + 2)
                      [("messageSort", "synchCall")]
                      [("sendEvent", ctr), ("receiveEvent", ctr + 1)] cmt
                    let ctr' := if 0 < sp.duration then ctr + 4 else ctr + 3
                    seqMsgsLoop rest t s2s llIds (k + 1) ctr' (els ++ [send, recv, msg])
                | _, _ => seqMsgsLoop rest t s2s llIds k ctr els

/-- `SequenceDiagramGenerator.generate_xmi_for_trace` (the `idx` parameter is
unused by the source method and is kept only for signature fidelity; the
method's `if not trace` guard can never fire on a dataclass instance). -/
def sequenceGenerateForTrace (t : Trace) (idx : Nat) : XElem :=
  let _ := idx
  let modelName :=
    match t.sourceName with
    | some s => if s = "" then "SequenceDiagram" else s ++ "_Sequence"
    | none => "SequenceDiagram"
  let services := t.get_all_service_names
  let res1 := seqClassesLoop services 2 [] []
  let classEls := res1.1
  let classIds := res1.2.1
  let collabId := res1.2.2
  let res2 := seqPropsLoop services classIds (collabId + 1) [] []
  let propEls := res2.1
  let propIds := res2.2.1
  let interId := res2.2.2
  let collab := XElem.mk "packagedElement" "uml:Collaboration"
    (modelName ++ "_Collaboration") collabId [] [] propEls
  let res3 := seqLifelinesLoop services propIds (interId + 1) [] []
  let llEls := res3.1
  let llIds := res3.2.1
  let ctr3 := res3.2.2
  let sorted := t.get_spans_sorted_by_time
  let s2s := buildSpanToService t sorted
  let res4 := seqMsgsLoop sorted t s2s llIds 0 ctr3 []
  let inter := XElem.mk "packagedElement" "uml:Interaction"
    (modelName ++ "_Interaction") interId [] [] (llEls ++ res4.1)
  let model := XElem.mk "uml:Model" "" modelName 1 [] []
    (classEls ++ [collab, inter])
  XElem.mk "xmi:XMI" "" "" 0 [("xmi:version", "2.5.1")] [] [model]

/-- `SequenceDiagramGenerator.generate_xmi`: empty output on no traces, else
the document for the first trace only. -/
def sequenceGenerate (traces : List Trace) : Option XElem :=
  match traces with
  | [] => none
  | t :: _ => some (sequenceGenerateForTrace t 0)

/-! ## `generators/unified_generator.py` -/

/-- A metadata value is "found" when the key is present with a truthy
(non-empty) value, as with Python's `metadata.get(key)` under `if value:`. -/
def getTruthy (md : List (String × String)) (k : String) : Option String :=
  match lookupD md k with
  | some v => if v = "" then none else some v
  | none => none

/-- Deterministic stand-in for Python's `hash(str(metadata))` in the
generic fallback node name.  (CPython's `hash` on strings is randomized per
process; the claims never depend on this value, only on it being a function
of the metadata map.) -/
def metaHash (md : List (String × String)) : Nat :=
  md.foldl (fun a kv => a * 31 + kv.1.length * 7 + kv.2.length) 7

/-- `UnifiedXmiGenerator._extract_node`: `hostname`, `host.name`,
`node.name`, `k8s.pod.name`, `pod.name` in that order, every hit passed
through `extract_base_name`, else the hash fallback. -/
def unifiedExtractNode (md : List (String × String)) : String :=
  if md = [] then "Node-Unknown"
  else
    match getTruthy md "hostname" with
    | some v => extract_base_name v
    | none =>
    match getTruthy md "host.name" with
    | some v => extract_base_name v
    | none =>
    match getTruthy md "node.name" with
    | some v => extract_base_name v
    | none =>
    match getTruthy md "k8s.pod.name" with
    | some v => extract_base_name v
    | none =>
    match getTruthy md "pod.name" with
    | some v => extract_base_name v
    | none => "Node-" ++ toString (metaHash md % 10000)

/-- The operation loop of `UnifiedXmiGenerator._generate_components`: one
`ownedOperation` element per raw operation name (named by
`extract_simple_operation_name`), and a dict write
`operation_ids[service][clean_op] = op_id` per raw name. -/
def buildOps : List String → Nat → List XElem → List (String × Nat) →
    List XElem × List (String × Nat) × Nat
  | [], ctr, els, reg => (els, reg, ctr)
  | op :: rest, ctr, els, reg =>
      let cop := extract_simple_operation_name op
      buildOps rest (ctr + 1)
        (els ++ [.mk "ownedOperation" "uml:Operation" cop ctr [("visibility", "public")] [] []])
        (insertD reg cop ctr)

/-- The service loop of `UnifiedXmiGenerator._generate_components`: one
`uml:Component` per service (in sorted order) holding its operation
elements. -/
def uniCompsLoop : List String → AggState → Nat → List XElem →
    List (String × Nat) → List (String × List (String × Nat)) →
    List XElem × List (String × Nat) × List (String × List (String × Nat)) × Nat
  | [], _, ctr, els, compIds, opIds => (els, compIds, opIds, ctr)
  | svc :: rest, agg, ctr, els, compIds, opIds =>
      let ops := pySorted strLe ((lookupD agg.serviceOperations svc).getD [])
      let compId := ctr
      let res := buildOps ops (ctr + 1) [] []
      let comp := XElem.mk "packagedElement" "uml:Component" svc compId
        [("visibility", "public")] [] res.1
      uniCompsLoop rest agg res.2.2 (els ++ [comp])
        (insertD compIds svc compId) (insertD opIds svc res.2.1)

/-- The inner dependency loop: one deduplicated `uml:Usage` per
`(caller, callee)` pair whose components both exist. -/
def uniDepsInner : String → List String → List (String × Nat) → List String →
    Nat → List XElem → List XElem × List String × Nat
  | _, [], _, created, ctr, els => (els, created, ctr)
  | caller, callee :: rest, compIds, created, ctr, els =>
      match lookupD compIds caller, lookupD compIds callee with
      | some cid, some eid =>
          let key := caller ++ "_to_" ++ callee
          if key ∈ created then uniDepsInner caller rest compIds created ctr els
          else
            let usage := XElem.mk "packagedElement" "uml:Usage" key ctr [] []
              [.mk "client" "" "" 0 [] [("idref", cid)] [],
               .mk "supplier" "" "" 0 [] [("idref", eid)] []]
            uniDepsInner caller rest compIds (created ++ [key]) (ctr + 1) (els ++ [usage])
      | _, _ => uniDepsInner caller rest compIds created ctr els

/-- The outer dependency loop over `service_calls`. -/
def uniDepsLoop : List (String × List (String × List String)) → List (String × Nat) →
    List String → Nat → List XElem → List XElem × Nat
  | [], _, _, ctr, els => (els, ctr)
  | (caller, callees) :: rest, compIds, created, ctr, els =>
      let res := uniDepsInner caller (callees.map (·.1)) compIds created ctr els
      uniDepsLoop rest compIds res.2.1 res.2.2 res.1

/-- Group services by their `unifiedExtractNode` node name
(`node_services`, keys in first-appearance order). -/
def uniGroupNodes : List (String × List (String × String)) →
    List (String × List String) → List (String × List String)
  | [], acc => acc
  | (svc, md) :: rest, acc =>
      let node := unifiedExtractNode md
      let cur := (lookupD acc node).getD []
      uniGroupNodes rest (insertD acc node (insertS cur svc))

/-- The node loop: one `uml:Node` per node name (sorted). -/
def uniNodesLoop : List String → Nat → List XElem → List (String × Nat) →
    List XElem × List (String × Nat) × Nat
  | [], ctr, els, ids => (els, ids, ctr)
  | n :: rest, ctr, els, ids =>
      uniNodesLoop rest (ctr + 1)
        (els ++ [.mk "packagedElement" "uml:Node" n ctr [] [] []])
        (insertD ids n ctr)

/-- The per-node artifact loop: artifact, manifestation (when the service
has a component) and deployment relationship per service, in sorted order. -/
def uniArtifactsInner : List String → Nat → List (String × Nat) → Nat →
    List XElem → List (String × Nat) →
    List XElem × List (String × Nat) × Nat
  | [], _, _, ctr, els, arts => (els, arts, ctr)
  | svc :: rest, nodeId, compIds, ctr, els, arts =>
      let artId := ctr
      let res :=
        match lookupD compIds svc with
        | some cid =>
            ([XElem.mk "manifestation" "uml:Manifestation" ("manifest_" ++ svc) (ctr + 1) []
               [("supplier", cid), ("client", artId)] []], ctr + 2)
        | none => ([], ctr + 1)
      let artifact := XElem.mk "packagedElement" "uml:Artifact" (svc ++ "_artifact") artId
        [] [] res.1
      let dep := XElem.mk "packagedElement" "uml:Deployment" ("deploy_" ++ svc) res.2
        [] [("location", nodeId), ("deployedArtifact", artId)] []
      uniArtifactsInner rest nodeId compIds (res.2 + 1)
        (els ++ [artifact, dep]) (insertD arts svc artId)

/-- The artifacts loop over `node_services.items()`; `self.node_ids[node_name]`
is a raising dict access, so a missing node id aborts the generation
(`none`, the caught-exception path of `generate`). -/
def uniArtifactsLoop : List (String × List String) → List (String × Nat) →
    List (String × Nat) → Nat → List XElem → List (String × Nat) →
    Option (List XElem × List (String × Nat) × Nat)
  | [], _, _, ctr, els, arts => some (els, arts, ctr)
  | (node, svcs) :: rest, nodeIds, compIds, ctr, els, arts =>
      match lookupD nodeIds node with
      | none => none
      | some nid =>
          let res := uniArtifactsInner (pySorted strLe svcs) nid compIds ctr els arts
          uniArtifactsLoop rest nodeIds compIds res.2.2 res.1 res.2.1

/-- The lifeline loop of `_generate_sequences` (no `represents` reference). -/
def uniLifelinesLoop : List String → Nat → List XElem → List (String × Nat) →
    List XElem × List (String × Nat) × Nat
  | [], ctr, els, ids => (els, ids, ctr)
  | svc :: rest, ctr, els, ids =>
      uniLifelinesLoop rest (ctr + 1)
        (els ++ [.mk "lifeline" "" svc ctr [] [] []])
        (insertD ids svc ctr)

/-- The span loop of `_generate_sequences`: for each span with a resolvable
parent owned by a different (non-empty-named) service, a send fragment, a
receive fragment and a `message` named by `extract_simple_operation_name`,
with a `signature` reference when the target component has a matching
operation id; the message id, span duration (µs) and async flag are queued
for the MARTE pass. -/
def uniMsgsLoop : List Span → Trace → List (String × String) → List (String × Nat) →
    List (String × List (String × Nat)) → Nat → Nat → List XElem →
    List (Nat × Nat × Bool) → List XElem × List (Nat × Nat × Bool) × Nat
  | [], _, _, _, _, _, ctr, els, msgIds => (els, msgIds, ctr)
  | sp :: rest, t, s2s, llIds, opIds, k, ctr, els, msgIds =>
      let svc := t.get_service_name sp
      match sp.get_parent_span_id with
      | none => uniMsgsLoop rest t s2s llIds opIds k ctr els msgIds
      | some pid =>
          match lookupD s2s pid with
          | none => uniMsgsLoop rest t s2s llIds opIds k ctr els msgIds
          | some psvc =>
              if psvc = "" ∨ psvc = svc then uniMsgsLoop rest t s2s llIds opIds k ctr els msgIds
              else
                match lookupD llIds psvc, lookupD llIds svc with
                | some fl, some tl =>
                    let send := XElem.mk "fragment" "uml:MessageOccurrenceSpecification"
                      ("msg" ++ toString k ++ "_send") ctr [] [("covered", fl)] []
                    let recv := XElem.mk "fragment" "uml:MessageOccurrenceSpecification"
                      ("msg" ++ toString k ++ "_recv") (ctr + 1) [] [("covered", tl)] []
                    let cop := extract_simple_operation_name sp.operationName
                    let targetOps := (lookupD opIds svc).getD []
                    let sig : List (String × Nat) :=
                      match lookupD targetOps cop with
                      | some oid => [("signature", oid)]
                      | none => []
                    let msg := XElem.mk "message" "" cop (ctr + 2)
                      [("messageSort", "synchCall")]
                      ([("sendEvent", ctr), ("receiveEvent", ctr + 1)] ++ sig) []
                    let isAsync : Bool := sp.get_tag "span.kind" = some "producer"
                    uniMsgsLoop rest t s2s llIds opIds (k + 1) (ctr + 3)
                      (els ++ [send, recv, msg])
                      (msgIds ++ [(ctr + 2, sp.duration, isAsync)])
                | _, _ => uniMsgsLoop rest t s2s llIds opIds k ctr els msgIds

/-- The trace loop of `_generate_sequences`: one `uml:UseCase` per trace,
holding one `uml:Interaction` (registered under the trace name, later
overwrites earlier on a name collision) with lifelines and messages. -/
def uniTracesLoop : List Trace → Nat → List (String × List (String × Nat)) → Nat →
    List XElem → List (String × Nat) → List (Nat × Nat × Bool) →
    List XElem × List (String × Nat) × List (Nat × Nat × Bool) × Nat
  | [], _, _, ctr, els, interIds, msgIds => (els, interIds, msgIds, ctr)
  | t :: rest, i, opIds, ctr, els, interIds, msgIds =>
      let tname :=
        match t.sourceName with
        | some s => if s = "" then "Trace_" ++ toString (i + 1) else s
        | none => "Trace_" ++ toString (i + 1)
      let ucId := ctr
      let interId := ctr + 1
      let services := t.get_all_service_names
      let resL := uniLifelinesLoop (pySorted strLe services) (ctr + 2) [] []
      let sorted := t.get_spans_sorted_by_time
      let s2s := buildSpanToService t sorted
      let resM := uniMsgsLoop sorted t s2s resL.2.1 opIds 0 resL.2.2 [] msgIds
      let inter := XElem.mk "ownedBehavior" "uml:Interaction" (tname ++ "_Interaction")
        interId [] [] (resL.1 ++ resM.1)
      let uc := XElem.mk "packagedElement" "uml:UseCase" tname ucId [] [] [inter]
      uniTracesLoop rest (i + 1) opIds resM.2.2 (els ++ [uc])
        (insertD interIds tname interId) resM.2.1

/-- The registries the MARTE pass reads. -/
structure UniRegs where
  compIds : List (String × Nat)
  opIds : List (String × List (String × Nat))
  artIds : List (String × Nat)
  nodeIds : List (String × Nat)
  interIds : List (String × Nat)
  msgIds : List (Nat × Nat × Bool)
deriving Repr

/-- `MarteProfileWriter.add_profile_application`. -/
def marteProfileApp (ctr : Nat) : XElem :=
  .mk "profileApplication" "uml:ProfileApplication" "" ctr [] []
    [.mk "appliedProfile" "uml:Profile" "" 0
      [("href", "pathmap://MARTE_PROFILE/MARTE.profile.uml#_ar8OsAPMEdyuUvV5MHMtrQ")] [] []]

/-- Milliseconds with three decimals from a microsecond count, as
`f-string {duration/1000.0:.3f}` renders it for exactly representable
values. -/
def ms3 (us : Nat) : String :=
  let frac := us % 1000
  let pad := if frac < 10 then "00" else if frac < 100 then "0" else ""
  toString (us / 1000) ++ "." ++ pad ++ toString frac

/-- `apply_rt_unit` over all components (`isActive` always emitted). -/
def rtUnitAnns : List (String × Nat) → Nat → List XElem × Nat
  | [], ctr => ([], ctr)
  | (_, cid) :: rest, ctr =>
      let res := rtUnitAnns rest (ctr + 1)
      (.mk "MARTE_GRM:RtUnit" "" "" ctr [("isActive", "true")]
        [("base_BehavioredClassifier", cid)] [] :: res.1, res.2)

/-- `apply_ga_exec_host` over all nodes (`speedFactor` 1.0 is omitted). -/
def gaExecHostAnns : List (String × Nat) → Nat → List XElem × Nat
  | [], ctr => ([], ctr)
  | (_, nid) :: rest, ctr =>
      let res := gaExecHostAnns rest (ctr + 1)
      (.mk "MARTE_GRM:GaExecHost" "" "" ctr [] [("base_Classifier", nid)] [] :: res.1, res.2)

/-- `apply_ga_analysis_context` over all interactions. -/
def gaContextAnns : List (String × Nat) → Nat → List XElem × Nat
  | [], ctr => ([], ctr)
  | (_, iid) :: rest, ctr =>
      let res := gaContextAnns rest (ctr + 1)
      (.mk "MARTE_GQAM:GaAnalysisContext" "" "" ctr [("isSingleMode", "true")]
        [("base_NamedElement", iid)] [] :: res.1, res.2)

/-- `apply_pa_step` over all queued messages (`prob` 1.0 is omitted;
`noSync` only when async). -/
def paStepAnns : List (Nat × Nat × Bool) → Nat → List XElem × Nat
  | [], ctr => ([], ctr)
  | (mid, us, isAsync) :: rest, ctr =>
      let res := paStepAnns rest (ctr + 1)
      let base := [("hostDemand", "(value=" ++ ms3 us ++ ",unit=ms)")]
      let attrs := if isAsync then base ++ [("noSync", "true")] else base
      (.mk "MARTE_PAM:PaStep" "" "" ctr attrs [("base_NamedElement", mid)] [] :: res.1, res.2)

/-- `UnifiedXmiGenerator._apply_marte_stereotypes`: the flat annotation
sequence appended at the XMI root. -/
def marteAnns (regs : UniRegs) (ctr : Nat) : List XElem :=
  let r1 := rtUnitAnns regs.compIds ctr
  let r2 := gaExecHostAnns regs.nodeIds r1.2
  let r3 := gaContextAnns regs.interIds r2.2
  let r4 := paStepAnns regs.msgIds r3.2
  r1.1 ++ r2.1 ++ r3.1 ++ r4.1

/-- The structural phase of `UnifiedXmiGenerator.generate`: model element
with profile application, components, dependencies, deployment and
use-case/sequence packages, plus the filled registries. -/
def unifiedStructural (traces : List Trace) : Option (XElem × UniRegs × Nat) :=
  let agg := aggregate traces
  let profApp := marteProfileApp 2
  let services := pySorted strLe agg.allServices
  let resC := uniCompsLoop services agg 4 [] [] []
  let compsPkg := XElem.mk "packagedElement" "uml:Package" "Components" 3 [] [] resC.1
  let compIds := resC.2.1
  let opIds := resC.2.2.1
  let ctrC := resC.2.2.2
  let resD := uniDepsLoop agg.serviceCalls compIds [] (ctrC + 1) []
  let depsPkg := XElem.mk "packagedElement" "uml:Package" "Dependencies" ctrC [] [] resD.1
  let nodeSvcs := uniGroupNodes agg.serviceMetadata []
  let resN := uniNodesLoop (pySorted strLe (nodeSvcs.map (·.1))) (resD.2 + 1) [] []
  let nodeIds := resN.2.1
  match uniArtifactsLoop nodeSvcs nodeIds compIds resN.2.2 [] [] with
  | none => none
  | some resA =>
      let deployPkg := XElem.mk "packagedElement" "uml:Package" "Deployment" resD.2 []
        [] (resN.1 ++ resA.1)
      let artIds := resA.2.1
      let ctrA := resA.2.2
      let resS := uniTracesLoop traces 0 opIds (ctrA + 1) [] [] []
      let ucPkg := XElem.mk "packagedElement" "uml:Package" "UseCases" ctrA [] [] resS.1
      let model := XElem.mk "uml:Model" "" "UnifiedModel" 1 [] []
        [profApp, compsPkg, depsPkg, deployPkg, ucPkg]
      some (model, ⟨compIds, opIds, artIds, nodeIds, resS.2.1, resS.2.2.1⟩, resS.2.2.2)

/-- `UnifiedXmiGenerator.generate` (with `include_marte`, the default):
empty output on no traces; else the model followed by the flat MARTE
annotation records, all under the XMI root. -/
def unifiedGenerate (traces : List Trace) : Option XElem :=
  if traces = [] then none
  else
    match unifiedStructural traces with
    | none => none
    | some (model, regs, ctr) =>
        some (.mk "xmi:XMI" "" "" 0 [("xmi:version", "2.5.1")] []
          (model :: marteAnns regs ctr))

/-! ## `generators/component_diagram_generator.py` -/

/-- Whether `needle` is a leading block of `hay`. -/
def listStarts : List Char → List Char → Bool
  | [], _ => true
  | _ :: _, [] => false
  | c :: cs, d :: ds => c = d && listStarts cs ds

/-- Whether `needle` occurs somewhere inside `hay` (Python `in` on strings). -/
def listHasSub (needle : List Char) : List Char → Bool
  | [] => listStarts needle []
  | d :: ds => listStarts needle (d :: ds) || listHasSub needle ds

/-- Python `needle in hay` for strings. -/
def containsSub (hay needle : String) : Bool := listHasSub needle.data hay.data

/-- Python `hay.endswith(needle)`. -/
def endsWithStr (hay needle : String) : Bool :=
  listStarts needle.data.reverse hay.data.reverse

/-- Python `str.lower` (ASCII, as in this repository's names). -/
def pyLower (s : String) : String := ⟨s.data.map Char.toLower⟩

/-- Python `str.replace(pat, rep)`: replace all non-overlapping occurrences
left to right.  The fuel argument (instantiated with the input length, an
upper bound on the number of steps) keeps the recursion structural. -/
def replaceCharsF (pat rep : List Char) : Nat → List Char → List Char
  | _, [] => []
  | 0, l => l
  | fuel + 1, c :: cs =>
      if listStarts pat (c :: cs) then
        rep ++ replaceCharsF pat rep fuel ((c :: cs).drop pat.length)
      else c :: replaceCharsF pat rep fuel cs

/-- Python `str.replace` on strings (non-empty pattern). -/
def pyReplace (s pat rep : String) : String :=
  ⟨replaceCharsF pat.data rep.data s.data.length s.data⟩

/-- Python `str.capitalize` on a character list: first character upper-cased,
the rest lower-cased. -/
def pyCapitalizeChars : List Char → List Char
  | [] => []
  | c :: cs => c.toUpper :: cs.map Char.toLower

/-- Python `str.capitalize`. -/
def pyCapitalize (s : String) : String := ⟨pyCapitalizeChars s.data⟩

/-- Python `str.split()` with no argument: split on whitespace runs,
dropping empty pieces. -/
def splitWsGo : List Char → List Char → List (List Char)
  | [], acc => if acc = [] then [] else [acc.reverse]
  | c :: cs, acc =>
      if isSpaceChar c then
        if acc = [] then splitWsGo cs [] else acc.reverse :: splitWsGo cs []
      else splitWsGo cs (c :: acc)

/-- Python `str.split()` on a string. -/
def splitWs (s : String) : List (List Char) := splitWsGo s.data []

/-- `ComponentDiagramGenerator.SERVICE_CATEGORIES`, in dict order. -/
def serviceCategories : List (String × String) :=
  [("frontend", "Presentation"), ("ui", "Presentation"), ("web", "Presentation"),
   ("client", "Presentation"), ("gateway", "Presentation"),
   ("database", "DataLayer"), ("db", "DataLayer"), ("mongo", "DataLayer"),
   ("postgres", "DataLayer"), ("mysql", "DataLayer"), ("redis", "DataLayer"),
   ("cache", "DataLayer"), ("memcache", "DataLayer")]

/-- First category whose keyword occurs in the lower-cased service name. -/
def firstCategory (lower : String) : Option String :=
  serviceCategories.findSome? (fun kv => if containsSub lower kv.1 then some kv.2 else none)

/-- The loop of `_categorize_services`, accumulating the three category sets. -/
def categorizeLoop : List String → List String → List String → List String →
    List String × List String × List String
  | [], p, s, d => (p, s, d)
  | svc :: rest, p, s, d =>
      match firstCategory (pyLower svc) with
      | some "Presentation" => categorizeLoop rest (insertS p svc) s d
      | some "DataLayer" => categorizeLoop rest p s (insertS d svc)
      | _ => categorizeLoop rest p (insertS s svc) d

/-- `_categorize_services`: category order Presentation, Services,
DataLayer; empty categories removed. -/
def categorizeServices (services : List String) : List (String × List String) :=
  let res := categorizeLoop services [] [] []
  ([("Presentation", res.1), ("Services", res.2.1), ("DataLayer", res.2.2)]).filter
    (fun kv => kv.2 ≠ [])

/-- `_detect_service_stereotype`. -/
def detectServiceStereotype (svc : String) (md : List (String × String)) : String :=
  if svc = "" then ""
  else
    let lower := pyLower svc
    if ["frontend", "ui", "web", "client"].any (fun k => containsSub lower k) then "WebUI"
    else if ["gateway", "api-gateway", "ingress"].any (fun k => containsSub lower k) then
      "Gateway"
    else if ["database", "db", "mongo", "postgres", "mysql"].any
        (fun k => containsSub lower k) then "Database"
    else if ["cache", "redis", "memcache"].any (fun k => containsSub lower k) then "Cache"
    else if md ≠ [] && containsSub (pyLower ((lookupD md "rpc.system").getD "")) "grpc" then
      "gRPC Service"
    else if endsWithStr lower "service" then "Microservice"
    else "Component"

/-- `_capitalize_service_name`: drop `service`/`Service`, split the rest on
dash/underscore, and PascalCase the pieces. -/
def capitalizeServiceName (name : String) : String :=
  let c1 := pyReplace (pyReplace name "service" "") "Service" ""
  let c2 := pyReplace (pyReplace c1 "-" " ") "_" " "
  match splitWs c2 with
  | [] => pyCapitalize name
  | parts => String.join (parts.map (fun w => ⟨pyCapitalizeChars w⟩))

/-- `_get_provided_operations`: union of the callers' operation sets towards
this callee. -/
def providedOps (callee : String) (calls : List (String × List (String × List String))) :
    List String :=
  calls.foldl
    (fun acc ckv =>
      match lookupD ckv.2 callee with
      | some ops => ops.foldl insertS acc
      | none => acc) []

/-- `_create_component`: the component plus its stereotype comment. -/
def compCreateLoop : List String → List (String × List (String × String)) → Nat →
    List XElem → List (String × Nat) → List XElem × List (String × Nat) × Nat
  | [], _, ctr, els, ids => (els, ids, ctr)
  | svc :: rest, svcMeta, ctr, els, ids =>
      let md := (lookupD svcMeta svc).getD []
      let st := detectServiceStereotype svc md
      let kids : List XElem :=
        if st = "" then [] else [commentEl (ctr + 1) ("«" ++ st ++ "»")]
      let comp := XElem.mk "packagedElement" "uml:Component" svc ctr
        [("visibility", "public")] [] kids
      let ctr' := if st = "" then ctr + 1 else ctr + 2
      compCreateLoop rest svcMeta ctr' (els ++ [comp]) (insertD ids svc ctr)

/-- The category-package loop of `generate_xmi`. -/
def compPackagesLoop : List (String × List String) → List (String × List (String × String)) →
    Nat → List XElem → List (String × Nat) →
    List XElem × List (String × Nat) × Nat
  | [], _, ctr, els, ids => (els, ids, ctr)
  | (cat, svcs) :: rest, svcMeta, ctr, els, ids =>
      let res := compCreateLoop svcs svcMeta (ctr + 1) [] ids
      let pkg := XElem.mk "packagedElement" "uml:Package" cat ctr [] [] res.1
      compPackagesLoop rest svcMeta res.2.2 (els ++ [pkg]) res.2.1

/-- `XmiWriter.create_interface` operation children. -/
def mkInterfaceOps : List String → Nat → List XElem × Nat
  | [], ctr => ([], ctr)
  | op :: rest, ctr =>
      let res := mkInterfaceOps rest (ctr + 1)
      (.mk "ownedOperation" "" op ctr [("visibility", "public")] [] [] :: res.1, res.2)

/-- The interface loop of `generate_xmi`: one `uml:Interface` per callee
with a non-empty provided-operation set, its operation list truncated to 15
cleaned names, with a `+N more operations` comment when truncated. -/
def compInterfacesLoop : List String → List (String × List (String × List String)) → Nat →
    List XElem → List (String × Nat) → List XElem × List (String × Nat) × Nat
  | [], _, ctr, els, ids => (els, ids, ctr)
  | callee :: rest, calls, ctr, els, ids =>
      let provided := providedOps callee calls
      if provided = [] then compInterfacesLoop rest calls ctr els ids
      else
        let iname := "I" ++ capitalizeServiceName callee
        let cleanOps := (provided.take 15).map clean_operation_name
        let res := mkInterfaceOps cleanOps (ctr + 1)
        let kids :=
          if 15 < provided.length then
            res.1 ++ [commentEl res.2
              ("+" ++ toString (provided.length - 15) ++ " more operations")]
          else res.1
        let iface := XElem.mk "packagedElement" "uml:Interface" iname ctr [] [] kids
        let ctr' := if 15 < provided.length then res.2 + 1 else res.2
        compInterfacesLoop rest calls ctr' (els ++ [iface]) (insertD ids callee ctr)

/-- The inner relationship loop over one caller's callees: a Usage per
(caller, interface) pair and an InterfaceRealization per callee not yet in
the class-level `_created_realizations` set. -/
def compRelsInner : String → List String → List (String × Nat) → List (String × Nat) →
    List String → Nat → List XElem → List XElem × List String × Nat
  | _, [], _, _, created, ctr, els => (els, created, ctr)
  | caller, callee :: rest, compIds, ifaceIds, created, ctr, els =>
      let ifaceId := lookupD ifaceIds callee
      let step1 : List XElem × Nat :=
        match lookupD compIds caller, ifaceId with
        | some cid, some iid =>
            (els ++ [XElem.mk "packagedElement" "uml:Usage"
              (caller ++ "_uses_" ++ callee) ctr [] []
              [.mk "client" "" "" 0 [] [("idref", cid)] [],
               .mk "supplier" "" "" 0 [] [("idref", iid)] []]], ctr + 1)
        | _, _ => (els, ctr)
      match lookupD compIds callee, ifaceId with
      | some kid, some iid =>
          if callee ∈ created then
            compRelsInner caller rest compIds ifaceIds created step1.2 step1.1
          else
            let real := XElem.mk "packagedElement" "uml:InterfaceRealization"
              (callee ++ "_provides_I" ++ callee) step1.2 [] []
              [.mk "client" "" "" 0 [] [("idref", kid)] [],
               .mk "supplier" "" "" 0 [] [("idref", iid)] [],
               .mk "contract" "" "" 0 [] [("idref", iid)] []]
            compRelsInner caller rest compIds ifaceIds (created ++ [callee])
              (step1.2 + 1) (step1.1 ++ [real])
      | _, _ => compRelsInner caller rest compIds ifaceIds created step1.2 step1.1

/-- The relationship loop over `service_calls`. -/
def compRelsLoop : List (String × List (String × List String)) → List (String × Nat) →
    List (String × Nat) → List String → Nat → List XElem →
    List XElem × List String × Nat
  | [], _, _, created, ctr, els => (els, created, ctr)
  | (caller, callees) :: rest, compIds, ifaceIds, created, ctr, els =>
      let res := compRelsInner caller (callees.map (·.1)) compIds ifaceIds created ctr els
      compRelsLoop rest compIds ifaceIds res.2.1 res.2.2 res.1

/-- `ComponentDiagramGenerator.generate_xmi`.  `created` is the class-level
`_created_realizations` set, which the source never resets: it persists
across runs and instances, and is threaded in and out here. -/
def componentGenerate (created : List String) (traces : List Trace) :
    Option XElem × List String :=
  match traces with
  | [] => (none, created)
  | t0 :: _ =>
      let agg := aggregate traces
      let modelName :=
        match t0.sourceName with
        | some s => if s = "" then "ComponentDiagram" else s ++ "_Component"
        | none => "ComponentDiagram"
      let cats := categorizeServices agg.allServices
      let resP := compPackagesLoop cats agg.serviceMetadata 2 [] []
      let compIds := resP.2.1
      let ifPkgId := resP.2.2
      let resI := compInterfacesLoop agg.allServices agg.serviceCalls (ifPkgId + 1) [] []
      let ifacePkg := XElem.mk "packagedElement" "uml:Package" "Interfaces" ifPkgId [] [] resI.1
      let relPkgId := resI.2.2
      let resR := compRelsLoop agg.serviceCalls compIds resI.2.1 created (relPkgId + 1) []
      let relPkg := XElem.mk "packagedElement" "uml:Package" "Relationships" relPkgId
        [] [] resR.1
      let model := XElem.mk "uml:Model" "" modelName 1 [] []
        (resP.1 ++ [ifacePkg, relPkg])
      (some (.mk "xmi:XMI" "" "" 0 [("xmi:version", "2.5.1")] [] [model]), resR.2.1)

/-! ## `generators/deployment_diagram_generator.py` -/

/-- `DeploymentDiagramGenerator._extract_node`: Kubernetes pod names, then
Docker container name/id, then VM/cloud host keys, then the hash fallback. -/
def deployExtractNode (md : List (String × String)) : String :=
  if md = [] then "Node-Unknown"
  else
    match (getTruthy md "pod.name").orElse (fun _ => getTruthy md "k8s.pod.name") with
    | some v => extract_base_name v
    | none =>
    match getTruthy md "container.name" with
    | some v => extract_base_name v
    | none =>
    match getTruthy md "container.id" with
    | some v => "Container-" ++ ⟨v.data.take 12⟩
    | none =>
    match getTruthy md "hostname" with
    | some v => v
    | none =>
    match getTruthy md "instance.id" with
    | some v => v
    | none =>
    match getTruthy md "host.name" with
    | some v => v
    | none =>
    match getTruthy md "node.name" with
    | some v => v
    | none =>
    match getTruthy md "host.ip" with
    | some v => "Host-" ++ v
    | none => "Node-" ++ toString (metaHash md % 10000)

/-- The deployment generator's `node_services` grouping. -/
def deployGroupNodes : List (String × List (String × String)) →
    List (String × List String) → List (String × List String)
  | [], acc => acc
  | (svc, md) :: rest, acc =>
      let node := deployExtractNode md
      let cur := (lookupD acc node).getD []
      deployGroupNodes rest (insertD acc node (insertS cur svc))

/-- Artifacts and deployment relationships of one node. -/
def depArtsInner : List String → String → Nat → Nat → List XElem → List (String × Nat) →
    List XElem × List (String × Nat) × Nat
  | [], _, _, ctr, els, aids => (els, aids, ctr)
  | svc :: rest, node, nodeId, ctr, els, aids =>
      let artifact := XElem.mk "packagedElement" "uml:Artifact" svc ctr [] [] []
      let dep := XElem.mk "packagedElement" "uml:Deployment"
        (node ++ "_deploys_" ++ svc) (ctr + 1) []
        [("location", nodeId), ("deployedArtifact", ctr)] []
      depArtsInner rest node nodeId (ctr + 2) (els ++ [artifact, dep]) (insertD aids svc ctr)

/-- The node loop of the deployment generator: each node element followed by
its artifacts and deployment relationships. -/
def depNodesLoop : List (String × List String) → Nat → List XElem →
    List (String × Nat) → List (String × Nat) →
    List XElem × List (String × Nat) × List (String × Nat) × Nat
  | [], ctr, els, nids, aids => (els, nids, aids, ctr)
  | (node, svcs) :: rest, ctr, els, nids, aids =>
      let nodeEl := XElem.mk "packagedElement" "uml:Node" node ctr [] [] []
      let res := depArtsInner svcs node ctr (ctr + 1) [] aids
      depNodesLoop rest res.2.2 (els ++ [nodeEl] ++ res.1) (insertD nids node ctr) res.2.1

/-- `_find_node_for_service`: first node whose service set contains the
service. -/
def findNodeForService (svc : String) : List (String × List String) → Option String
  | [] => none
  | (node, svcs) :: rest =>
      if svc ∈ svcs then some node else findNodeForService svc rest

/-- One `uml:CommunicationPath` with its two typed `ownedEnd` children. -/
def commPathEl (ctr : Nat) (key : String) (fromId toId : Nat) : XElem :=
  .mk "packagedElement" "uml:CommunicationPath" key ctr [] []
    [.mk "ownedEnd" "" "" (ctr + 1) [] [("type", fromId)] [],
     .mk "ownedEnd" "" "" (ctr + 2) [] [("type", toId)] []]

/-- The inner communication-path loop over one caller's dependencies. -/
def depPathsInner : String → List String → List (String × List String) →
    List (String × Nat) → List String → Nat → List XElem →
    List XElem × List String × Nat
  | _, [], _, _, created, ctr, els => (els, created, ctr)
  | fromSvc, toSvc :: rest, nodeSvcs, nodeIds, created, ctr, els =>
      let fromNode := findNodeForService fromSvc nodeSvcs
      let toNode := findNodeForService toSvc nodeSvcs
      match fromNode, toNode with
      | some fn, some tn =>
          if fn = "" || tn = "" || fn = tn then
            depPathsInner fromSvc rest nodeSvcs nodeIds created ctr els
          else
            let key := fn ++ "_to_" ++ tn
            let rev := tn ++ "_to_" ++ fn
            if key ∈ created || rev ∈ created then
              depPathsInner fromSvc rest nodeSvcs nodeIds created ctr els
            else
              match lookupD nodeIds fn, lookupD nodeIds tn with
              | some fid, some tid =>
                  depPathsInner fromSvc rest nodeSvcs nodeIds (created ++ [key])
                    (ctr + 3) (els ++ [commPathEl ctr key fid tid])
              | _, _ => depPathsInner fromSvc rest nodeSvcs nodeIds created ctr els
      | _, _ => depPathsInner fromSvc rest nodeSvcs nodeIds created ctr els

/-- The communication-path loop over `service_dependencies`. -/
def depPathsLoop : List (String × List String) → List (String × List String) →
    List (String × Nat) → List String → Nat → List XElem → List XElem × Nat
  | [], _, _, _, ctr, els => (els, ctr)
  | (fromSvc, toSvcs) :: rest, nodeSvcs, nodeIds, created, ctr, els =>
      let res := depPathsInner fromSvc toSvcs nodeSvcs nodeIds created ctr els
      depPathsLoop rest nodeSvcs nodeIds res.2.1 res.2.2 res.1

/-- `DeploymentDiagramGenerator.generate_xmi`. -/
def deploymentGenerate (traces : List Trace) : Option XElem :=
  match traces with
  | [] => none
  | t0 :: _ =>
      let agg := aggregate traces
      let modelName :=
        match t0.sourceName with
        | some s => if s = "" then "DeploymentDiagram" else s ++ "_Deployment"
        | none => "DeploymentDiagram"
      let nodeSvcs := deployGroupNodes agg.serviceMetadata []
      let resN := depNodesLoop nodeSvcs 2 [] [] []
      let resP := depPathsLoop agg.serviceDependencies nodeSvcs resN.2.1 [] resN.2.2.2 []
      let model := XElem.mk "uml:Model" "" modelName 1 [] [] (resN.1 ++ resP.1)
      some (.mk "xmi:XMI" "" "" 0 [("xmi:version", "2.5.1")] [] [model])

/-! ## Claim-side reference definitions and observation helpers -/

/-- Modelled from the claim (C4 wording): first non-empty match in priority
order pod name → container name → container id (`Container-` + first 12
characters) → hostname → instance id → host name → node name → host ip
(`Host-` + ip) → fallback derived from the metadata map; pod and container
names additionally hash-suffix-stripped. -/
def claimNodeName (md : List (String × String)) : String :=
  if md = [] then "Node-Unknown"
  else
    match (getTruthy md "pod.name").orElse (fun _ => getTruthy md "k8s.pod.name") with
    | some pod => extract_base_name pod
    | none =>
    match getTruthy md "container.name" with
    | some cn => extract_base_name cn
    | none =>
    match getTruthy md "container.id" with
    | some ci => "Container-" ++ ⟨ci.data.take 12⟩
    | none =>
    match getTruthy md "hostname" with
    | some h => h
    | none =>
    match getTruthy md "instance.id" with
    | some iid => iid
    | none =>
    match getTruthy md "host.name" with
    | some hn => hn
    | none =>
    match getTruthy md "node.name" with
    | some nn => nn
    | none =>
    match getTruthy md "host.ip" with
    | some ip => "Host-" ++ ip
    | none => "Node-" ++ toString (metaHash md % 10000)

/-- Modelled from the amended C4 wording: the unified view's node-name
priority is hostname → host.name → node.name → k8s.pod.name → pod.name,
every matched value hash-suffix-stripped, else the fallback. -/
def claimUnifiedNodeName (md : List (String × String)) : String :=
  if md = [] then "Node-Unknown"
  else
    match getTruthy md "hostname" with
    | some v => extract_base_name v
    | none =>
    match getTruthy md "host.name" with
    | some v => extract_base_name v
    | none =>
    match getTruthy md "node.name" with
    | some v => extract_base_name v
    | none =>
    match getTruthy md "k8s.pod.name" with
    | some v => extract_base_name v
    | none =>
    match getTruthy md "pod.name" with
    | some v => extract_base_name v
    | none => "Node-" ++ toString (metaHash md % 10000)

/-- Unwrap an optional document (empty placeholder when absent). -/
def unwrapDoc : Option XElem → XElem
  | some d => d
  | none => .mk "" "" "" 0 [] [] []

/-- Modelled from the claim (C6 wording): the identifier allocated for the
last raw operation name in the processed list that reduces to the given
simple name, counting one identifier per raw name from `ctr`. -/
def lastAllocFor : List String → Nat → String → Option Nat
  | [], _, _ => none
  | op :: rest, ctr, k =>
      match lastAllocFor rest (ctr + 1) k with
      | some v => some v
      | none => if extract_simple_operation_name op = k then some ctr else none

/-- Names of all `message` elements of a document, in order. -/
def msgNamesIn (e : XElem) : List String :=
  (elemsIn e).filterMap (fun x => if x.tag = "message" then some x.name else none)

/-- Names of all `message` elements of an optional document. -/
def optMsgNames : Option XElem → List String
  | none => []
  | some e => msgNamesIn e

/-- The `ownedOperation` children rendered under the named component. -/
def opsOfComponent (doc : XElem) (svc : String) : List XElem :=
  ((elemsIn doc).filter (fun e => e.typ = "uml:Component" && e.name = svc)).flatMap
    (fun e => e.children.filter (fun c => c.tag = "ownedOperation"))

/-- Number of `uml:InterfaceRealization` elements in a document. -/
def countRealizations (doc : XElem) : Nat :=
  ((elemsIn doc).filter (fun e => e.typ = "uml:InterfaceRealization")).length

/-- Number of `uml:InterfaceRealization` elements of an optional document. -/
def optCountRealizations : Option XElem → Nat
  | none => 0
  | some d => countRealizations d

/-- A document is well-formed when it is an XMI root whose first child is
the model element. -/
def wellFormedDoc (d : XElem) : Prop :=
  d.tag = "xmi:XMI" ∧ ∃ m rest, d.children = m :: rest ∧ m.tag = "uml:Model"

/-- The kind constraint C1 places on an annotation's base reference:
which structural element a stereotype record of the given tag must point at. -/
def annTargetOk (tag : String) (e : XElem) : Prop :=
  (tag = "MARTE_GRM:RtUnit" → e.typ = "uml:Component") ∧
  (tag = "MARTE_GRM:GaExecHost" → e.typ = "uml:Node") ∧
  (tag = "MARTE_GQAM:GaAnalysisContext" → e.typ = "uml:Interaction") ∧
  (tag = "MARTE_PAM:PaStep" → e.tag = "message")

/-- The four MARTE stereotype record tags of the unified generator. -/
def marteTags : List String :=
  ["MARTE_GRM:RtUnit", "MARTE_GRM:GaExecHost", "MARTE_GQAM:GaAnalysisContext",
   "MARTE_PAM:PaStep"]

/-! ## Concrete test inputs -/

/-- The §8 end-to-end trace: svcA's `Checkout` span is the parent of svcB's
`GET /cart` span. -/
def t8 : Trace :=
  { traceId := "T1"
    spans :=
      [{ traceId := "T1", spanId := "s1", operationName := "Checkout",
         startTime := 1000, duration := 5000, processId := "p1",
         references := [], tags := [] },
       { traceId := "T1", spanId := "s2", operationName := "GET /cart",
         startTime := 2000, duration := 3000, processId := "p2",
         references := [{ refType := "CHILD_OF", traceId := "T1", spanId := "s1" }],
         tags := [] }]
    processes := [("p1", { serviceName := "svcA", tags := [] }),
                  ("p2", { serviceName := "svcB", tags := [] })]
    sourceName := none }

/-- A trace with no spans. -/
def tEmpty : Trace := { traceId := "T0", spans := [], processes := [], sourceName := none }

/-- A trace whose single service carries 21 distinct operations. -/
def t21 : Trace :=
  { traceId := "T2"
    spans := (List.range 21).map (fun i =>
      { traceId := "T2", spanId := "s" ++ toString i,
        operationName := "op" ++ toString i, startTime := i, duration := 0,
        processId := "p1", references := [], tags := [] })
    processes := [("p1", { serviceName := "svcA", tags := [] })]
    sourceName := none }

/-- Metadata carrying both a pod name and a hostname (C4's discriminating
input). -/
def mdC4 : List (String × String) :=
  [("hostname", "h1"), ("pod.name", "mypod-7d5c8f9b8-xk7pt")]

/-- Sixteen distinct operation names (one more than the interface cap). -/
def ops16 : List String := (List.range 16).map (fun i => "op" ++ toString i)

/-- A call map in which svcA calls svcB with sixteen distinct operations. -/
def calls16 : List (String × List (String × List String)) :=
  [("svcA", [("svcB", ops16)])]

/-- A span whose reference list holds a FOLLOWS_FROM reference before a
CHILD_OF reference whose target is absent from its trace. -/
def spanFC : Span :=
  { traceId := "T3", spanId := "x2", operationName := "o", startTime := 0,
    duration := 0, processId := "p",
    references := [{ refType := "FOLLOWS_FROM", traceId := "T3", spanId := "a" },
                   { refType := "CHILD_OF", traceId := "T3", spanId := "b" }],
    tags := [] }

/-- A trace containing only `spanFC`, so its parent reference is unresolvable. -/
def tOrphan : Trace :=
  { traceId := "T3", spans := [spanFC],
    processes := [("p", { serviceName := "svcX", tags := [] })], sourceName := none }

/-! # Theorems -/

/-! ## Association-list, set and sort lemmas -/

theorem lookupD_insertD {V : Type} (m : List (String × V)) (k k' : String) (v : V) :
    lookupD (insertD m k v) k' = if k = k' then some v else lookupD m k' := by
  induction m with
  | nil => simp [insertD, lookupD]
  | cons p rest ih =>
      obtain ⟨a, b⟩ := p
      by_cases hak : a = k
      · subst hak
        by_cases hkk : a = k' <;> simp [insertD, lookupD, hkk]
      · simp only [insertD, if_neg hak, lookupD]
        by_cases hak' : a = k'
        · subst hak'
          have hka : ¬ k = a := fun h => hak h.symm
          simp [lookupD, hka]
        · simp [lookupD, hak', ih]

theorem mem_insertD {V : Type} (m : List (String × V)) (k : String) (v : V)
    (p : String × V) : p ∈ insertD m k v → p = (k, v) ∨ p ∈ m := by
  induction m with
  | nil =>
      intro h
      simpa [insertD] using h
  | cons q rest ih =>
      obtain ⟨a, b⟩ := q
      intro h
      by_cases hqk : a = k
      · simp only [insertD, if_pos hqk, List.mem_cons] at h
        rcases h with h | h
        · exact Or.inl h
        · exact Or.inr (List.mem_cons_of_mem _ h)
      · simp only [insertD, if_neg hqk, List.mem_cons] at h
        rcases h with h | h
        · exact Or.inr (by simp [h])
        · rcases ih h with h' | h'
          · exact Or.inl h'
          · exact Or.inr (List.mem_cons_of_mem _ h')

theorem mem_insertS (s : List String) (x y : String) :
    y ∈ insertS s x ↔ y = x ∨ y ∈ s := by
  unfold insertS
  by_cases hx : x ∈ s
  · simp only [if_pos hx]
    constructor
    · exact Or.inr
    · rintro (rfl | h)
      · exact hx
      · exact h
  · simp only [if_neg hx, List.mem_append, List.mem_singleton]
    tauto

theorem mem_insertSorted {α : Type} (le : α → α → Bool) (x : α) (l : List α) (y : α) :
    y ∈ insertSorted le x l ↔ y = x ∨ y ∈ l := by
  induction l with
  | nil => simp [insertSorted]
  | cons a l ih =>
      by_cases h : le x a
      · simp [insertSorted, h]
      · simp only [insertSorted, if_neg h, List.mem_cons, ih]
        tauto

theorem mem_pySorted {α : Type} (le : α → α → Bool) (l : List α) (y : α) :
    y ∈ pySorted le l ↔ y ∈ l := by
  induction l with
  | nil => simp [pySorted]
  | cons a l ih =>
      simp only [pySorted, List.foldr_cons] at *
      rw [mem_insertSorted, ih]
      simp

/-! ## Element-tree membership lemmas -/

theorem elemsIn_def (t ty n : String) (i : Nat) (a : List (String × String))
    (r : List (String × Nat)) (cs : List XElem) :
    elemsIn (.mk t ty n i a r cs) = .mk t ty n i a r cs :: elemsList cs := by
  rfl

theorem self_mem_elemsIn (e : XElem) : e ∈ elemsIn e := by
  cases e
  rw [elemsIn_def]
  exact List.mem_cons_self _ _

theorem elemsList_append (a b : List XElem) :
    elemsList (a ++ b) = elemsList a ++ elemsList b := by
  induction a with
  | nil => rfl
  | cons c cs ih => simp [elemsList, ih]

theorem mem_elemsList_of_mem {c : XElem} {cs : List XElem} (hc : c ∈ cs)
    {x : XElem} (hx : x ∈ elemsIn c) : x ∈ elemsList cs := by
  induction cs with
  | nil => cases hc
  | cons d ds ih =>
      rcases List.mem_cons.mp hc with rfl | hc'
      · exact List.mem_append_left _ hx
      · exact List.mem_append_right _ (ih hc')

theorem mem_elemsIn_of_child {e c x : XElem} (hc : c ∈ e.children)
    (hx : x ∈ elemsIn c) : x ∈ elemsIn e := by
  cases e
  rw [elemsIn_def]
  exact List.mem_cons_of_mem _ (mem_elemsList_of_mem hc hx)

theorem mem_elemsIn_of_elemsList {e x : XElem} (h : x ∈ elemsList e.children) :
    x ∈ elemsIn e := by
  cases e
  rw [elemsIn_def]
  exact List.mem_cons_of_mem _ h

/-! ## Idempotence of operation-name cleaning (towards C9) -/

theorem allowed_not_space (c : Char) (h : isAllowedChar c = true) :
    isSpaceChar c = false := by
  rcases hs : isSpaceChar c with _ | _
  · rfl
  · have hd : ((c = ' ' ∨ c = '\t') ∨ c = '\x0d') ∨ c = '\n' := by
      simpa [isSpaceChar, Char.isWhitespace] using hs
    rcases hd with ((rfl | rfl) | rfl) | rfl <;> simp [isAllowedChar, isWordChar] at h

theorem dropExact_sub (v : List Char) :
    ∀ s rest, dropExact v s = some rest → ∀ c ∈ rest, c ∈ s := by
  induction v with
  | nil =>
      intro s rest h c hc
      simp only [dropExact, Option.some.injEq] at h
      exact h ▸ hc
  | cons a as ih =>
      intro s rest h c hc
      cases s with
      | nil => simp [dropExact] at h
      | cons d ds =>
          simp only [dropExact] at h
          by_cases had : a = d
          · rw [if_pos had] at h
            exact List.mem_cons_of_mem _ (ih ds rest h c hc)
          · rw [if_neg had] at h
            cases h

theorem tryStripVerb_none_of_allowed (v s : List Char)
    (h : ∀ c ∈ s, isAllowedChar c = true) : tryStripVerb v s = none := by
  unfold tryStripVerb
  cases hd : dropExact v s with
  | none => rfl
  | some rest =>
      cases rest with
      | nil => rfl
      | cons c cs =>
          have hc : c ∈ s := dropExact_sub v s (c :: cs) hd c (List.mem_cons_self _ _)
          have hns := allowed_not_space c (h c hc)
          simp [hns]

theorem stripHttpVerb_of_allowed (s : List Char)
    (h : ∀ c ∈ s, isAllowedChar c = true) : stripHttpVerb s = s := by
  have hnone : httpVerbs.findSome? (fun v => tryStripVerb v s) = none := by
    simp [httpVerbs, List.findSome?_cons, tryStripVerb_none_of_allowed _ s h]
  unfold stripHttpVerb
  rw [hnone]

theorem mapAllowed_id (l : List Char) (h : ∀ c ∈ l, isAllowedChar c = true) :
    l.map (fun c => if isAllowedChar c then c else '_') = l := by
  induction l with
  | nil => rfl
  | cons a l ih =>
      have ha := h a (List.mem_cons_self _ _)
      simp only [List.map_cons, if_pos ha]
      rw [ih (fun c hc => h c (List.mem_cons_of_mem _ hc))]

theorem dropWhile_dropWhile {α : Type} (p : α → Bool) (l : List α) :
    (l.dropWhile p).dropWhile p = l.dropWhile p := by
  induction l with
  | nil => rfl
  | cons a l ih =>
      by_cases h : p a
      · simpa [List.dropWhile_cons, h] using ih
      · simp [List.dropWhile_cons, h]

theorem head_dropWhile_false {α : Type} (p : α → Bool) (l : List α) :
    ∀ c cs, l.dropWhile p = c :: cs → p c = false := by
  induction l with
  | nil => intro c cs h; cases h
  | cons a l ih =>
      intro c cs h
      by_cases ha : p a
      · rw [List.dropWhile_cons, if_pos ha] at h
        exact ih c cs h
      · rw [List.dropWhile_cons, if_neg ha] at h
        cases h
        simpa using ha

theorem stripEdges_decomp (m : List Char) :
    m.dropWhile (· = '_') =
      stripEdges m ++ ((m.dropWhile (· = '_')).reverse.takeWhile (· = '_')).reverse := by
  have h1 := List.takeWhile_append_dropWhile (p := (· = '_'))
    (l := (m.dropWhile (· = '_')).reverse)
  have h2 := congrArg List.reverse h1
  rw [List.reverse_append, List.reverse_reverse] at h2
  exact h2.symm

theorem stripEdges_dropWhile_fix (m : List Char) :
    (stripEdges m).dropWhile (· = '_') = stripEdges m := by
  obtain ⟨w, hw⟩ : ∃ w, m.dropWhile (· = '_') = stripEdges m ++ w :=
    ⟨_, stripEdges_decomp m⟩
  rcases hu : stripEdges m with _ | ⟨c, cs⟩
  · simp
  · have hm : m.dropWhile (· = '_') = c :: (cs ++ w) := by
      rw [hw, hu]
      rfl
    have hc := head_dropWhile_false (· = '_') m c _ hm
    simp [List.dropWhile_cons, hc]

theorem stripEdges_idem (m : List Char) : stripEdges (stripEdges m) = stripEdges m := by
  have step2 : (stripEdges m).reverse.dropWhile (· = '_') = (stripEdges m).reverse := by
    rw [show (stripEdges m).reverse = (m.dropWhile (· = '_')).reverse.dropWhile (· = '_') by
      unfold stripEdges
      rw [List.reverse_reverse]]
    exact dropWhile_dropWhile _ _
  calc stripEdges (stripEdges m)
      = (((stripEdges m).dropWhile (· = '_')).reverse.dropWhile (· = '_')).reverse := rfl
    _ = ((stripEdges m).reverse.dropWhile (· = '_')).reverse := by
          rw [stripEdges_dropWhile_fix]
    _ = ((stripEdges m).reverse).reverse := by rw [step2]
    _ = stripEdges m := List.reverse_reverse _

theorem mem_stripEdges {c : Char} {l : List Char} (h : c ∈ stripEdges l) : c ∈ l := by
  unfold stripEdges at h
  rw [List.mem_reverse] at h
  have h1 : c ∈ (l.dropWhile (· = '_')).reverse := (List.dropWhile_sublist _).subset h
  rw [List.mem_reverse] at h1
  exact (List.dropWhile_sublist _).subset h1

theorem clean_allowed (s : List Char) :
    ∀ c ∈ cleanOperationChars s, isAllowedChar c = true := by
  have hunk : ∀ c ∈ "unknown".data, isAllowedChar c = true := by decide
  unfold cleanOperationChars
  by_cases h0 : s = []
  · rw [if_pos h0]
    exact hunk
  · rw [if_neg h0]
    by_cases h1 : stripEdges ((stripHttpVerb s).map
        (fun c => if isAllowedChar c then c else '_')) = []
    · rw [if_pos h1]
      exact hunk
    · rw [if_neg h1]
      intro c hc
      have h2 := mem_stripEdges hc
      rcases List.mem_map.mp h2 with ⟨a, _, ha⟩
      by_cases haa : isAllowedChar a
      · rw [if_pos haa] at ha
        exact ha ▸ haa
      · rw [if_neg haa] at ha
        rw [← ha]
        decide

theorem clean_ne_nil (s : List Char) : cleanOperationChars s ≠ [] := by
  unfold cleanOperationChars
  by_cases h0 : s = []
  · rw [if_pos h0]
    decide
  · rw [if_neg h0]
    by_cases h1 : stripEdges ((stripHttpVerb s).map
        (fun c => if isAllowedChar c then c else '_')) = []
    · rw [if_pos h1]
      decide
    · rw [if_neg h1]
      exact h1

theorem clean_stripEdges_fix (s : List Char) :
    stripEdges (cleanOperationChars s) = cleanOperationChars s := by
  unfold cleanOperationChars
  by_cases h0 : s = []
  · rw [if_pos h0]
    decide
  · rw [if_neg h0]
    by_cases h1 : stripEdges ((stripHttpVerb s).map
        (fun c => if isAllowedChar c then c else '_')) = []
    · rw [if_pos h1]
      decide
    · rw [if_neg h1]
      exact stripEdges_idem _

theorem cleanChars_idem (s : List Char) :
    cleanOperationChars (cleanOperationChars s) = cleanOperationChars s := by
  have hA := clean_allowed s
  have hne := clean_ne_nil s
  have hfix := clean_stripEdges_fix s
  have h1 : stripHttpVerb (cleanOperationChars s) = cleanOperationChars s :=
    stripHttpVerb_of_allowed _ hA
  have h2 : (cleanOperationChars s).map (fun c => if isAllowedChar c then c else '_') =
      cleanOperationChars s := mapAllowed_id _ hA
  conv_lhs => rw [cleanOperationChars]
  rw [if_neg hne, h1, h2, hfix, if_neg hne]

/-- C9: Operation-name cleaning is idempotent: for every input string x,
clean_operation_name (clean_operation_name x) equals clean_operation_name x. -/
theorem c9_clean_operation_name_idempotent (x : String) :
    clean_operation_name (clean_operation_name x) = clean_operation_name x := by
  unfold clean_operation_name
  exact congrArg String.mk (cleanChars_idem x.data)

/-- C10: For every non-empty trace list, the standalone sequence generator's
`generate_xmi(traces)` returns exactly `generate_xmi_for_trace(traces[0], 0)`;
the second and later traces have no effect on the produced document. -/
theorem c10_sequence_generator_uses_first_trace_only (t : Trace) (rest : List Trace) :
    sequenceGenerate (t :: rest) = some (sequenceGenerateForTrace t 0) := rfl

/-! ## The unified operation-identifier registry (towards C6) -/

theorem buildOps_reg_lookup :
    ∀ (ops : List String) (ctr : Nat) (els : List XElem) (reg : List (String × Nat))
      (k : String),
      lookupD (buildOps ops ctr els reg).2.1 k =
        match lastAllocFor ops ctr k with
        | some v => some v
        | none => lookupD reg k := by
  intro ops
  induction ops with
  | nil =>
      intro ctr els reg k
      rfl
  | cons op rest ih =>
      intro ctr els reg k
      simp only [buildOps]
      rw [ih, lookupD_insertD]
      cases h : lastAllocFor rest (ctr + 1) k with
      | some v => simp only [lastAllocFor, h]
      | none =>
          simp only [lastAllocFor, h]
          by_cases hk : extract_simple_operation_name op = k
          · simp [hk]
          · simp [hk]

theorem mem_keys_insertD {V : Type} (m : List (String × V)) (k : String) (v : V)
    (x : String) (h : x ∈ (insertD m k v).map Prod.fst) :
    x = k ∨ x ∈ m.map Prod.fst := by
  rcases List.mem_map.mp h with ⟨p, hp, hpx⟩
  rcases mem_insertD m k v p hp with h' | h'
  · subst h'
    exact Or.inl hpx.symm
  · exact Or.inr (hpx ▸ List.mem_map_of_mem _ h')

theorem keys_nodup_insertD {V : Type} (m : List (String × V)) (k : String) (v : V)
    (h : (m.map Prod.fst).Nodup) : ((insertD m k v).map Prod.fst).Nodup := by
  induction m with
  | nil => simp [insertD]
  | cons p rest ih =>
      obtain ⟨a, b⟩ := p
      simp only [List.map_cons, List.nodup_cons] at h
      by_cases hak : a = k
      · subst hak
        have hins : insertD ((a, b) :: rest) a v = (a, v) :: rest := by simp [insertD]
        rw [hins]
        simpa using h
      · simp only [insertD, if_neg hak, List.map_cons, List.nodup_cons]
        refine ⟨?_, ih h.2⟩
        intro hmem
        rcases mem_keys_insertD rest k v a hmem with rfl | hmem'
        · exact hak rfl
        · exact h.1 hmem'

theorem buildOps_keys_nodup :
    ∀ (ops : List String) (ctr : Nat) (els : List XElem) (reg : List (String × Nat)),
      (reg.map Prod.fst).Nodup → (((buildOps ops ctr els reg).2.1).map Prod.fst).Nodup := by
  intro ops
  induction ops with
  | nil =>
      intro ctr els reg h
      exact h
  | cons op rest ih =>
      intro ctr els reg h
      simp only [buildOps]
      exact ih _ _ _ (keys_nodup_insertD _ _ _ h)

/-- C6: In the unified builder's component pass, the per-service operation
registry maps each simple (cleaned) operation name to exactly one identifier
— the one allocated for the last raw name in processing order reducing to
that simple name (dict overwrite, last write wins) — and no duplicate keys
remain in the registry. -/
theorem c6_operation_registry_last_write_wins (ops : List String) (ctr : Nat) :
    (((buildOps ops ctr [] []).2.1).map Prod.fst).Nodup ∧
    ∀ k, lookupD (buildOps ops ctr [] []).2.1 k = lastAllocFor ops ctr k := by
  constructor
  · exact buildOps_keys_nodup ops ctr [] [] (by simp)
  · intro k
    rw [buildOps_reg_lookup]
    cases h : lastAllocFor ops ctr k <;> simp [lookupD]

/-! ## Node-name priority (C4) -/

/-- C4 counterexample: on metadata carrying both a pod name and a hostname
the unified view resolves the hostname while the claimed priority (and the
deployment view) resolve the pod name — the claim fails for the unified
view. -/
theorem c4_counterexample_unified_priority_differs :
    unifiedExtractNode mdC4 = "h1" ∧ deployExtractNode mdC4 = "mypod" ∧
    claimNodeName mdC4 = "mypod" ∧ ("h1" : String) ≠ "mypod" := by
  refine ⟨rfl, rfl, rfl, ?_⟩
  decide

/-- C4 amended: the deployment view's node name follows the claimed priority
order (pod name → container name → container id → hostname → instance id →
host name → node name → host ip → fallback, pod/container names
hash-stripped); the unified view instead follows hostname → host.name →
node.name → k8s.pod.name → pod.name (every hit hash-stripped) → fallback. -/
theorem c4_node_name_priority :
    (∀ md, deployExtractNode md = claimNodeName md) ∧
    (∀ md, unifiedExtractNode md = claimUnifiedNodeName md) :=
  ⟨fun _ => rfl, fun _ => rfl⟩

/-! ## Concrete evaluations for C2, C3 and C5 -/

/-- C3 counterexample: for the §8 input the unified document's single
embedded-sequence message is named by the simple name `"cart"`, not by the
cleaned name `"/cart"` the claim requires (which the standalone builder
does produce). -/
theorem c3_counterexample_unified_message_name :
    optMsgNames (unifiedGenerate [t8]) = ["cart"] ∧
    msgNamesIn (sequenceGenerateForTrace t8 0) = ["/cart"] ∧
    clean_operation_name "GET /cart" = "/cart" ∧
    (["cart"] : List String) ≠ ["/cart"] := by
  refine ⟨by decide, by decide, by decide, by decide⟩

/-- C5 counterexample: a service with 21 distinct operations gets all 21
rendered under its component in the unified document — there is no
20-operation truncation. -/
theorem c5_counterexample_no_unified_truncation :
    (opsOfComponent (unwrapDoc (unifiedGenerate [t21])) "svcA").length = 21 ∧
    ¬ ((opsOfComponent (unwrapDoc (unifiedGenerate [t21])) "svcA").length ≤ 20) := by
  refine ⟨by decide, by decide⟩

/-- C2: the class-level `_created_realizations` set persists across runs, so
the first run over the §8 input creates one InterfaceRealization, while an
identical second run creates none — contradicting "exactly one per callee in
every run". -/
theorem c2_realization_dedup_leaks_across_runs :
    optCountRealizations (componentGenerate [] [t8]).1 = 1 ∧
    optCountRealizations (componentGenerate (componentGenerate [] [t8]).2 [t8]).1 = 0 := by
  refine ⟨by decide, by decide⟩

/-! ## Aggregator degradation behaviour (C7) -/

theorem firstChildOfRef_first (pre : List Reference) :
    ∀ (r : Reference) (post : List Reference),
      (∀ r' ∈ pre, r'.refType ≠ "CHILD_OF") → r.refType = "CHILD_OF" →
      firstChildOfRef (pre ++ r :: post) = some r.spanId := by
  induction pre with
  | nil =>
      intro r post _ hr
      simp [firstChildOfRef, hr]
  | cons a pre ih =>
      intro r post hpre hr
      have ha := hpre a (List.mem_cons_self _ _)
      simp only [List.cons_append, firstChildOfRef, if_neg ha]
      exact ih r post (fun r' hr' => hpre r' (List.mem_cons_of_mem _ hr')) hr

theorem firstChildOfRef_none (refs : List Reference)
    (h : ∀ r ∈ refs, r.refType ≠ "CHILD_OF") : firstChildOfRef refs = none := by
  induction refs with
  | nil => rfl
  | cons a rest ih =>
      have ha := h a (List.mem_cons_self _ _)
      simp only [firstChildOfRef, if_neg ha]
      exact ih (fun r hr => h r (List.mem_cons_of_mem _ hr))

theorem analyzeSpanBase_calls (st : AggState) (t : Trace) (sp : Span) :
    (analyzeSpanBase st t sp).serviceCalls = st.serviceCalls := by
  simp only [analyzeSpanBase]
  split
  · rfl
  · split
    · split
      · rfl
      · rfl
    · rfl

theorem analyzeSpanBase_deps (st : AggState) (t : Trace) (sp : Span) :
    (analyzeSpanBase st t sp).serviceDependencies = st.serviceDependencies := by
  simp only [analyzeSpanBase]
  split
  · rfl
  · split
    · split
      · rfl
      · rfl
    · rfl

theorem analyzeSpanEdges_resolved (st : AggState) (t : Trace) (sp : Span) (pid : String)
    (h : sp.get_parent_span_id = some pid) :
    analyzeSpanEdges st t sp = analyzeSpanEdgeWith st t sp pid := by
  unfold analyzeSpanEdges
  rw [h]

theorem analyzeSpanEdgeWith_unresolved (st : AggState) (t : Trace) (sp : Span)
    (pid : String) (h : t.get_span pid = none) :
    analyzeSpanEdgeWith st t sp pid = st := by
  unfold analyzeSpanEdgeWith
  rw [h]

/-- C7: The aggregator resolves a span's parent as the first CHILD_OF
reference (FOLLOWS_FROM and later CHILD_OF entries are ignored), degrades a
missing process id or an absent process to service `"unknown"`, and a
parent reference matching no span of the trace changes neither the
dependency map nor the call map; the embedding is total, so no failure path
exists. -/
theorem c7_aggregator_degrades_silently :
    (∀ (pre post : List Reference) (r : Reference) (sp : Span),
        sp.references = pre ++ r :: post →
        (∀ r' ∈ pre, r'.refType ≠ "CHILD_OF") → r.refType = "CHILD_OF" →
        sp.get_parent_span_id = some r.spanId) ∧
    (∀ sp : Span, (∀ r ∈ sp.references, r.refType ≠ "CHILD_OF") →
        sp.get_parent_span_id = none) ∧
    (∀ (t : Trace) (sp : Span),
        sp.processId = "" ∨ lookupD t.processes sp.processId = none →
        t.get_service_name sp = "unknown") ∧
    (∀ (st : AggState) (t : Trace) (sp : Span) (pid : String),
        sp.get_parent_span_id = some pid → t.get_span pid = none →
        (analyzeSpan st t sp).serviceCalls = st.serviceCalls ∧
        (analyzeSpan st t sp).serviceDependencies = st.serviceDependencies) := by
  refine ⟨?_, ?_, ?_, ?_⟩
  · intro pre post r sp hrefs hpre hr
    unfold Span.get_parent_span_id
    rw [hrefs]
    exact firstChildOfRef_first pre r post hpre hr
  · intro sp h
    exact firstChildOfRef_none sp.references h
  · intro t sp h
    unfold Trace.get_service_name
    rcases h with h | h
    · rw [if_pos h]
    · by_cases hp : sp.processId = ""
      · rw [if_pos hp]
      · rw [if_neg hp]
        unfold Trace.get_process
        rw [h]
  · intro st t sp pid h1 h2
    unfold analyzeSpan
    rw [analyzeSpanEdges_resolved _ t sp pid h1,
        analyzeSpanEdgeWith_unresolved _ t sp pid h2]
    exact ⟨analyzeSpanBase_calls st t sp, analyzeSpanBase_deps st t sp⟩

/-- Witness for C7 at concrete inputs: `spanFC`'s parent is its first
CHILD_OF target `"b"`, an unregistered process id resolves to `"unknown"`,
and aggregating the orphaned span leaves the call and dependency maps
empty. -/
theorem c7_witness :
    spanFC.get_parent_span_id = some "b" ∧
    tOrphan.get_service_name { spanFC with processId := "q" } = "unknown" ∧
    (analyzeSpan emptyAgg tOrphan spanFC).serviceCalls = emptyAgg.serviceCalls := by
  refine ⟨?_, ?_, ?_⟩
  · exact c7_aggregator_degrades_silently.1
      [{ refType := "FOLLOWS_FROM", traceId := "T3", spanId := "a" }] []
      { refType := "CHILD_OF", traceId := "T3", spanId := "b" } spanFC rfl
      (by decide) rfl
  · exact c7_aggregator_degrades_silently.2.2.1 tOrphan _ (Or.inr (by decide))
  · exact (c7_aggregator_degrades_silently.2.2.2 emptyAgg tOrphan spanFC "b"
      (by decide) (by decide)).1

/-! ## Totality of the generators (C8) -/

theorem lookup_uniNodesLoop :
    ∀ (names : List String) (ctr : Nat) (els : List XElem) (ids : List (String × Nat))
      (n : String), (n ∈ names ∨ (lookupD ids n).isSome) →
      (lookupD (uniNodesLoop names ctr els ids).2.1 n).isSome := by
  intro names
  induction names with
  | nil =>
      intro ctr els ids n h
      rcases h with h | h
      · cases h
      · exact h
  | cons m rest ih =>
      intro ctr els ids n h
      simp only [uniNodesLoop]
      apply ih
      rcases h with h | h
      · rcases List.mem_cons.mp h with rfl | h'
        · right
          rw [lookupD_insertD]
          simp
        · left
          exact h'
      · right
        rw [lookupD_insertD]
        by_cases hmn : m = n
        · simp [hmn]
        · simpa [hmn] using h

theorem uniArtifactsLoop_ne_none :
    ∀ (groups : List (String × List String)) (nodeIds compIds : List (String × Nat))
      (ctr : Nat) (els : List XElem) (arts : List (String × Nat)),
      (∀ n ∈ groups.map Prod.fst, (lookupD nodeIds n).isSome) →
      uniArtifactsLoop groups nodeIds compIds ctr els arts ≠ none := by
  intro groups
  induction groups with
  | nil =>
      intro nodeIds compIds ctr els arts _ h
      simp [uniArtifactsLoop] at h
  | cons g rest ih =>
      intro nodeIds compIds ctr els arts hc
      obtain ⟨node, svcs⟩ := g
      have hn : (lookupD nodeIds node).isSome := hc node (by simp)
      rcases hl : lookupD nodeIds node with _ | nid
      · rw [hl] at hn
        cases hn
      · simp only [uniArtifactsLoop, hl]
        exact ih nodeIds compIds _ _ _
          (fun n hn' => hc n (List.mem_cons_of_mem _ hn'))

theorem unifiedStructural_shape (ts : List Trace) :
    ∃ m regs c, unifiedStructural ts = some (m, regs, c) ∧ m.tag = "uml:Model" := by
  simp only [unifiedStructural]
  split
  next h =>
      exact absurd h (uniArtifactsLoop_ne_none _ _ _ _ _ _
        (fun n hn => lookup_uniNodesLoop _ _ _ _ n
          (Or.inl ((mem_pySorted _ _ _).mpr hn))))
  next resA h => exact ⟨_, _, _, rfl, rfl⟩

/-- C8: On an empty trace list every generator variant returns the empty
result, and on any non-empty trace list — in particular one containing a
trace with no spans — every variant produces a well-formed document (an XMI
root whose first child is the model element); no failure path is
reachable. -/
theorem c8_empty_and_spanless_inputs_safe :
    unifiedGenerate [] = none ∧
    (∀ created, (componentGenerate created []).1 = none) ∧
    deploymentGenerate [] = none ∧
    sequenceGenerate [] = none ∧
    (∀ traces, traces ≠ [] → (∃ t ∈ traces, t.spans = []) →
      (∃ d, unifiedGenerate traces = some d ∧ wellFormedDoc d) ∧
      (∀ created, ∃ d, (componentGenerate created traces).1 = some d ∧ wellFormedDoc d) ∧
      (∃ d, deploymentGenerate traces = some d ∧ wellFormedDoc d) ∧
      (∃ d, sequenceGenerate traces = some d ∧ wellFormedDoc d)) := by
  refine ⟨rfl, fun _ => rfl, rfl, rfl, ?_⟩
  intro traces hne _
  obtain ⟨t0, rest, rfl⟩ : ∃ t0 rest, traces = t0 :: rest := by
    cases traces with
    | nil => exact absurd rfl hne
    | cons a l => exact ⟨a, l, rfl⟩
  refine ⟨?_, ?_, ?_, ?_⟩
  · obtain ⟨m, regs, c, hm, htag⟩ := unifiedStructural_shape (t0 :: rest)
    refine ⟨.mk "xmi:XMI" "" "" 0 [("xmi:version", "2.5.1")] [] (m :: marteAnns regs c),
      ?_, ?_⟩
    · unfold unifiedGenerate
      rw [if_neg (by simp), hm]
    · exact ⟨rfl, m, _, rfl, htag⟩
  · intro created
    exact ⟨_, rfl, rfl, _, _, rfl, rfl⟩
  · exact ⟨_, rfl, rfl, _, _, rfl, rfl⟩
  · exact ⟨_, rfl, rfl, _, _, rfl, rfl⟩

/-- Witness for C8 at the concrete inputs: the empty list and the list
holding only the span-less trace. -/
theorem c8_witness :
    unifiedGenerate [] = none ∧
    (∃ d, unifiedGenerate [tEmpty] = some d ∧ wellFormedDoc d) ∧
    (∃ d, deploymentGenerate [tEmpty] = some d ∧ wellFormedDoc d) := by
  refine ⟨c8_empty_and_spanless_inputs_safe.1, ?_, ?_⟩
  · exact (c8_empty_and_spanless_inputs_safe.2.2.2.2 [tEmpty] (by simp)
      ⟨tEmpty, by simp, rfl⟩).1
  · exact (c8_empty_and_spanless_inputs_safe.2.2.2.2 [tEmpty] (by simp)
      ⟨tEmpty, by simp, rfl⟩).2.2.1

/-! ## Message naming in the two sequence constructions (C3) -/

theorem seqMsgsLoop_names :
    ∀ (spans : List Span) (t : Trace) (s2s : List (String × String))
      (llIds : List (String × Nat)) (k ctr : Nat) (els : List XElem),
      ∀ e ∈ (seqMsgsLoop spans t s2s llIds k ctr els).1,
        e ∈ els ∨ e.tag ≠ "message" ∨
        ∃ sp ∈ spans, e.name = clean_operation_name sp.operationName := by
  intro spans
  induction spans with
  | nil =>
      intro t s2s llIds k ctr els e he
      exact Or.inl he
  | cons sp rest ih =>
      intro t s2s llIds k ctr els e he
      have step : ∀ (k' ctr' : Nat) (els' : List XElem),
          e ∈ (seqMsgsLoop rest t s2s llIds k' ctr' els').1 →
          e ∈ els' ∨ e.tag ≠ "message" ∨
          ∃ sp' ∈ sp :: rest, e.name = clean_operation_name sp'.operationName := by
        intro k' ctr' els' h'
        rcases ih t s2s llIds k' ctr' els' e h' with h | h | ⟨sp', h1, h2⟩
        · exact Or.inl h
        · exact Or.inr (Or.inl h)
        · exact Or.inr (Or.inr ⟨sp', List.mem_cons_of_mem _ h1, h2⟩)
      simp only [seqMsgsLoop] at he
      split at he
      · exact step _ _ _ he
      · split at he
        · exact step _ _ _ he
        · split at he
          · exact step _ _ _ he
          · split at he
            · rcases step _ _ _ he with h | h | h
              · rcases List.mem_append.mp h with h' | h'
                · exact Or.inl h'
                · simp only [List.mem_cons, List.not_mem_nil, or_false] at h'
                  rcases h' with rfl | rfl | rfl
                  · exact Or.inr (Or.inl (fun hh =>
                      absurd (show ("fragment" : String) = "message" from hh) (by decide)))
                  · exact Or.inr (Or.inl (fun hh =>
                      absurd (show ("fragment" : String) = "message" from hh) (by decide)))
                  · exact Or.inr (Or.inr ⟨sp, List.mem_cons_self _ _, rfl⟩)
              · exact Or.inr (Or.inl h)
              · exact Or.inr (Or.inr h)
            · exact step _ _ _ he

theorem uniMsgsLoop_names :
    ∀ (spans : List Span) (t : Trace) (s2s : List (String × String))
      (llIds : List (String × Nat)) (opIds : List (String × List (String × Nat)))
      (k ctr : Nat) (els : List XElem) (msgIds : List (Nat × Nat × Bool)),
      ∀ e ∈ (uniMsgsLoop spans t s2s llIds opIds k ctr els msgIds).1,
        e ∈ els ∨ e.tag ≠ "message" ∨
        ∃ sp ∈ spans, e.name = extract_simple_operation_name sp.operationName := by
  intro spans
  induction spans with
  | nil =>
      intro t s2s llIds opIds k ctr els msgIds e he
      exact Or.inl he
  | cons sp rest ih =>
      intro t s2s llIds opIds k ctr els msgIds e he
      have step : ∀ (k' ctr' : Nat) (els' : List XElem) (msgIds' : List (Nat × Nat × Bool)),
          e ∈ (uniMsgsLoop rest t s2s llIds opIds k' ctr' els' msgIds').1 →
          e ∈ els' ∨ e.tag ≠ "message" ∨
          ∃ sp' ∈ sp :: rest, e.name = extract_simple_operation_name sp'.operationName := by
        intro k' ctr' els' msgIds' h'
        rcases ih t s2s llIds opIds k' ctr' els' msgIds' e h' with h | h | ⟨sp', h1, h2⟩
        · exact Or.inl h
        · exact Or.inr (Or.inl h)
        · exact Or.inr (Or.inr ⟨sp', List.mem_cons_of_mem _ h1, h2⟩)
      simp only [uniMsgsLoop] at he
      split at he
      · exact step _ _ _ _ he
      · split at he
        · exact step _ _ _ _ he
        · split at he
          · exact step _ _ _ _ he
          · split at he
            · rcases step _ _ _ _ he with h | h | h
              · rcases List.mem_append.mp h with h' | h'
                · exact Or.inl h'
                · simp only [List.mem_cons, List.not_mem_nil, or_false] at h'
                  rcases h' with rfl | rfl | rfl
                  · exact Or.inr (Or.inl (fun hh =>
                      absurd (show ("fragment" : String) = "message" from hh) (by decide)))
                  · exact Or.inr (Or.inl (fun hh =>
                      absurd (show ("fragment" : String) = "message" from hh) (by decide)))
                  · exact Or.inr (Or.inr ⟨sp, List.mem_cons_self _ _, rfl⟩)
              · exact Or.inr (Or.inl h)
              · exact Or.inr (Or.inr h)
            · exact step _ _ _ _ he

/-- C3 (amended): in the standalone sequence builder every `message` element
is named by the cleaned operation name of one of the processed spans, while
the unified builder's embedded sequences name every `message` element by the
simple operation name; on the §8 input this yields `"/cart"` in the
standalone document and `"cart"` in the unified one. -/
theorem c3_message_naming :
    (∀ (spans : List Span) (t : Trace) (s2s : List (String × String))
       (llIds : List (String × Nat)) (k ctr : Nat),
       ∀ e ∈ (seqMsgsLoop spans t s2s llIds k ctr []).1,
         e.tag = "message" →
         ∃ sp ∈ spans, e.name = clean_operation_name sp.operationName) ∧
    (∀ (spans : List Span) (t : Trace) (s2s : List (String × String))
       (llIds : List (String × Nat)) (opIds : List (String × List (String × Nat)))
       (k ctr : Nat) (msgIds : List (Nat × Nat × Bool)),
       ∀ e ∈ (uniMsgsLoop spans t s2s llIds opIds k ctr [] msgIds).1,
         e.tag = "message" →
         ∃ sp ∈ spans, e.name = extract_simple_operation_name sp.operationName) ∧
    msgNamesIn (sequenceGenerateForTrace t8 0) = ["/cart"] ∧
    optMsgNames (unifiedGenerate [t8]) = ["cart"] := by
  refine ⟨?_, ?_, by decide, by decide⟩
  · intro spans t s2s llIds k ctr e he htag
    rcases seqMsgsLoop_names spans t s2s llIds k ctr [] e he with h | h | h
    · cases h
    · exact absurd htag h
    · exact h
  · intro spans t s2s llIds opIds k ctr msgIds e he htag
    rcases uniMsgsLoop_names spans t s2s llIds opIds k ctr [] msgIds e he with h | h | h
    · cases h
    · exact absurd htag h
    · exact h

/-- Witness for C3 at the §8 trace: the standalone loop's single emitted
message is named by the cleaned name of the `GET /cart` span. -/
theorem c3_message_naming_witness :
    ∃ sp ∈ t8.get_spans_sorted_by_time,
      (XElem.mk "message" "" "/cart" 10 [("messageSort", "synchCall")]
        [("sendEvent", 8), ("receiveEvent", 9)]
        [commentEl 11 "Duration: 3000μs"]).name = clean_operation_name sp.operationName := by
  refine c3_message_naming.1 t8.get_spans_sorted_by_time t8
    (buildSpanToService t8 t8.get_spans_sorted_by_time)
    [("svcA", 6), ("svcB", 7)] 0 8 _ ?_ rfl
  have h : (seqMsgsLoop t8.get_spans_sorted_by_time t8
      (buildSpanToService t8 t8.get_spans_sorted_by_time)
      [("svcA", 6), ("svcB", 7)] 0 8 []).1 =
      [XElem.mk "fragment" "uml:MessageOccurrenceSpecification" "msg0_send" 8 []
        [("covered", 6)] [],
       XElem.mk "fragment" "uml:MessageOccurrenceSpecification" "msg0_receive" 9 []
        [("covered", 7)] [],
       XElem.mk "message" "" "/cart" 10 [("messageSort", "synchCall")]
        [("sendEvent", 8), ("receiveEvent", 9)]
        [commentEl 11 "Duration: 3000μs"]] := rfl
  rw [h]
  exact List.Mem.tail _ (List.Mem.tail _ (List.Mem.head _))

/-! ## Operation rendering and truncation (C5) -/

theorem buildOps_els :
    ∀ (ops : List String) (ctr : Nat) (els : List XElem) (reg : List (String × Nat)),
      ((buildOps ops ctr els reg).1.length = els.length + ops.length) ∧
      ∀ e ∈ (buildOps ops ctr els reg).1, e ∈ els ∨ e.tag = "ownedOperation" := by
  intro ops
  induction ops with
  | nil =>
      intro ctr els reg
      exact ⟨rfl, fun e he => Or.inl he⟩
  | cons op rest ih =>
      intro ctr els reg
      simp only [buildOps]
      constructor
      · rw [(ih _ _ _).1]
        simp only [List.length_append, List.length_cons, List.length_nil]
        omega
      · intro e he
        rcases (ih _ _ _).2 e he with h | h
        · rcases List.mem_append.mp h with h' | h'
          · exact Or.inl h'
          · simp only [List.mem_singleton] at h'
            subst h'
            exact Or.inr rfl
        · exact Or.inr h

theorem mkInterfaceOps_els :
    ∀ (ops : List String) (ctr : Nat),
      ((mkInterfaceOps ops ctr).1.length = ops.length) ∧
      ∀ e ∈ (mkInterfaceOps ops ctr).1, e.tag = "ownedOperation" := by
  intro ops
  induction ops with
  | nil =>
      intro ctr
      exact ⟨rfl, fun e he => absurd he (List.not_mem_nil e)⟩
  | cons op rest ih =>
      intro ctr
      simp only [mkInterfaceOps]
      constructor
      · simp [(ih (ctr + 1)).1]
      · intro e he
        rcases List.mem_cons.mp he with rfl | hm
        · rfl
        · exact (ih (ctr + 1)).2 e hm

theorem filter_ownedOperation_self (l : List XElem)
    (hl : ∀ x ∈ l, x.tag = "ownedOperation") :
    l.filter (fun c => c.tag = "ownedOperation") = l := by
  rw [List.filter_eq_self]
  intro a ha
  simp [hl a ha]

theorem compInterfacesLoop_bounded :
    ∀ (callees : List String) (calls : List (String × List (String × List String)))
      (ctr : Nat) (els : List XElem) (ids : List (String × Nat)),
      ∀ e ∈ (compInterfacesLoop callees calls ctr els ids).1,
        e ∈ els ∨
        ∃ total, (e.children.filter (fun c => c.tag = "ownedOperation")).length =
            min 15 total ∧
          (15 < total → ∃ c ∈ e.children, c.tag = "ownedComment" ∧
            ∃ b ∈ c.children,
              b.name = "+" ++ toString (total - 15) ++ " more operations") := by
  intro callees
  induction callees with
  | nil =>
      intro calls ctr els ids e he
      exact Or.inl he
  | cons callee rest ih =>
      intro calls ctr els ids e he
      simp only [compInterfacesLoop] at he
      split at he
      · exact ih _ _ _ _ e he
      · rcases ih _ _ _ _ e he with h | h
        · rcases List.mem_append.mp h with h1 | h1
          · exact Or.inl h1
          · simp only [List.mem_singleton] at h1
            subst h1
            refine Or.inr ⟨(providedOps callee calls).length, ?_, ?_⟩
            · have hops := mkInterfaceOps_els
                (((providedOps callee calls).take 15).map clean_operation_name) (ctr + 1)
              by_cases h15 : 15 < (providedOps callee calls).length
              · simp only [XElem.children, if_pos h15]
                rw [List.filter_append, filter_ownedOperation_self _ hops.2]
                have hc : (List.filter (fun c => c.tag = "ownedOperation")
                    [commentEl
                      (mkInterfaceOps (((providedOps callee calls).take 15).map
                        clean_operation_name) (ctr + 1)).2
                      ("+" ++ toString ((providedOps callee calls).length - 15) ++
                        " more operations")]).length = 0 := rfl
                rw [List.length_append, hc, hops.1]
                simp only [List.length_map, List.length_take]
                omega
              · simp only [XElem.children, if_neg h15]
                rw [filter_ownedOperation_self _ hops.2, hops.1]
                simp only [List.length_map, List.length_take]
            · intro h15
              simp only [XElem.children, if_pos h15]
              exact ⟨_, List.mem_append_right _ (List.Mem.head _), rfl, _,
                List.Mem.head _, rfl⟩
        · exact Or.inr h

theorem compInterfacesLoop_els_mono :
    ∀ (callees : List String) (calls : List (String × List (String × List String)))
      (ctr : Nat) (els : List XElem) (ids : List (String × Nat)),
      ∃ suf, (compInterfacesLoop callees calls ctr els ids).1 = els ++ suf := by
  intro callees
  induction callees with
  | nil =>
      intro calls ctr els ids
      exact ⟨[], (List.append_nil els).symm⟩
  | cons callee rest ih =>
      intro calls ctr els ids
      simp only [compInterfacesLoop]
      split
      · exact ih _ _ _ _
      · obtain ⟨suf, hsuf⟩ := ih calls _ (els ++ _) _
        exact ⟨_, by rw [hsuf, List.append_assoc]⟩

theorem compInterfacesLoop_comment :
    ∀ (callees : List String) (calls : List (String × List (String × List String)))
      (ctr : Nat) (els : List XElem) (ids : List (String × Nat)),
      ∀ callee ∈ callees, providedOps callee calls ≠ [] →
      ∃ e ∈ (compInterfacesLoop callees calls ctr els ids).1,
        e.name = "I" ++ capitalizeServiceName callee ∧
        (e.children.filter (fun c => c.tag = "ownedOperation")).length =
          min 15 (providedOps callee calls).length ∧
        (15 < (providedOps callee calls).length →
          ∃ c ∈ e.children, c.tag = "ownedComment" ∧
            ∃ b ∈ c.children, b.name =
              "+" ++ toString ((providedOps callee calls).length - 15) ++
                " more operations") ∧
        ((providedOps callee calls).length ≤ 15 →
          ∀ c ∈ e.children, c.tag ≠ "ownedComment") := by
  intro callees
  induction callees with
  | nil =>
      intro calls ctr els ids callee hmem
      cases hmem
  | cons c0 rest ih =>
      intro calls ctr els ids callee hmem hprov
      rcases List.mem_cons.mp hmem with rfl | hmem
      · simp only [compInterfacesLoop]
        rw [if_neg hprov]
        obtain ⟨suf, hsuf⟩ := compInterfacesLoop_els_mono rest calls _ (els ++ _) _
        have hops := mkInterfaceOps_els
          (((providedOps callee calls).take 15).map clean_operation_name) (ctr + 1)
        refine ⟨_, by
          rw [hsuf]
          exact List.mem_append_left _ (List.mem_append_right _ (List.Mem.head _)),
          by rfl, ?_, ?_, ?_⟩
        · by_cases h15 : 15 < (providedOps callee calls).length
          · simp only [XElem.children, if_pos h15]
            rw [List.filter_append, filter_ownedOperation_self _ hops.2]
            have hc : (List.filter (fun c => c.tag = "ownedOperation")
                [commentEl
                  (mkInterfaceOps (((providedOps callee calls).take 15).map
                    clean_operation_name) (ctr + 1)).2
                  ("+" ++ toString ((providedOps callee calls).length - 15) ++
                    " more operations")]).length = 0 := rfl
            rw [List.length_append, hc, hops.1]
            simp only [List.length_map, List.length_take]
            omega
          · simp only [XElem.children, if_neg h15]
            rw [filter_ownedOperation_self _ hops.2, hops.1]
            simp only [List.length_map, List.length_take]
        · intro h15
          simp only [XElem.children, if_pos h15]
          exact ⟨_, List.mem_append_right _ (List.Mem.head _), rfl, _,
            List.Mem.head _, rfl⟩
        · intro hle c hc
          have h15 : ¬ 15 < (providedOps callee calls).length := by omega
          simp only [XElem.children, if_neg h15] at hc
          have htag := hops.2 c hc
          rw [htag]
          decide
      · simp only [compInterfacesLoop]
        split
        · exact ih _ _ _ _ callee hmem hprov
        · exact ih _ _ _ _ callee hmem hprov

/-- C5 (amended): the unified/plain component view renders one
`ownedOperation` element per raw operation name with no truncation (no
20-element cap, no Comment); the interface-based view renders at most 15
operations per synthesized interface — exactly `min 15 total` of the
`total` operations the callee provides — and attaches a Comment stating
`+(total - 15) more operations` exactly when `total` exceeds 15, and no
Comment otherwise. -/
theorem c5_operation_truncation :
    (∀ (ops : List String) (ctr : Nat), ((buildOps ops ctr [] []).1).length = ops.length) ∧
    (∀ (ops : List String) (ctr : Nat), ∀ e ∈ (buildOps ops ctr [] []).1,
        e.tag = "ownedOperation") ∧
    (∀ (callees : List String) (calls : List (String × List (String × List String)))
       (ctr : Nat) (els : List XElem) (ids : List (String × Nat)),
       ∀ e ∈ (compInterfacesLoop callees calls ctr els ids).1,
         e ∈ els ∨
         (e.children.filter (fun c => c.tag = "ownedOperation")).length ≤ 15) ∧
    (∀ (callees : List String) (calls : List (String × List (String × List String)))
       (ctr : Nat) (els : List XElem) (ids : List (String × Nat)),
       ∀ callee ∈ callees, providedOps callee calls ≠ [] →
       ∃ e ∈ (compInterfacesLoop callees calls ctr els ids).1,
         e.name = "I" ++ capitalizeServiceName callee ∧
         (e.children.filter (fun c => c.tag = "ownedOperation")).length =
           min 15 (providedOps callee calls).length ∧
         (15 < (providedOps callee calls).length →
           ∃ c ∈ e.children, c.tag = "ownedComment" ∧
             ∃ b ∈ c.children, b.name =
               "+" ++ toString ((providedOps callee calls).length - 15) ++
                 " more operations") ∧
         ((providedOps callee calls).length ≤ 15 →
           ∀ c ∈ e.children, c.tag ≠ "ownedComment")) := by
  refine ⟨?_, ?_, ?_, compInterfacesLoop_comment⟩
  · intro ops ctr
    simpa using (buildOps_els ops ctr [] []).1
  · intro ops ctr e he
    rcases (buildOps_els ops ctr [] []).2 e he with h | h
    · cases h
    · exact h
  · intro callees calls ctr els ids e he
    rcases compInterfacesLoop_bounded callees calls ctr els ids e he with h | ⟨total, ht, _⟩
    · exact Or.inl h
    · refine Or.inr ?_
      rw [ht]
      exact Nat.min_le_left 15 total

/-- Witness for C5 at a concrete input: svcB provides sixteen operations,
so its synthesized interface renders `min 15 16` operations and (because
`15 < 16`) must carry the `+1 more operations` comment; the no-comment
clause holds vacuously. -/
theorem c5_operation_truncation_witness :
    (providedOps "svcB" calls16).length = 16 ∧
    ∃ e ∈ (compInterfacesLoop ["svcB"] calls16 2 [] []).1,
      e.name = "I" ++ capitalizeServiceName "svcB" ∧
      (e.children.filter (fun c => c.tag = "ownedOperation")).length =
        min 15 (providedOps "svcB" calls16).length ∧
      (15 < (providedOps "svcB" calls16).length →
        ∃ c ∈ e.children, c.tag = "ownedComment" ∧
          ∃ b ∈ c.children, b.name =
            "+" ++ toString ((providedOps "svcB" calls16).length - 15) ++
              " more operations") ∧
      ((providedOps "svcB" calls16).length ≤ 15 →
        ∀ c ∈ e.children, c.tag ≠ "ownedComment") := by
  refine ⟨by decide, ?_⟩
  exact c5_operation_truncation.2.2.2 ["svcB"] calls16 2 [] [] "svcB"
    (List.Mem.head _) (by decide)

/-! ## Registry-to-element invariants of the unified builder (towards C1) -/

theorem uniCompsLoop_comp_inv :
    ∀ (services : List String) (agg : AggState) (ctr : Nat) (els : List XElem)
      (cIds : List (String × Nat)) (oIds : List (String × List (String × Nat))),
      (∀ si ∈ cIds, ∃ e ∈ elemsList els, e.idn = si.2 ∧ e.typ = "uml:Component") →
      ∀ si ∈ (uniCompsLoop services agg ctr els cIds oIds).2.1,
        ∃ e ∈ elemsList (uniCompsLoop services agg ctr els cIds oIds).1,
          e.idn = si.2 ∧ e.typ = "uml:Component" := by
  intro services
  induction services with
  | nil =>
      intro agg ctr els cIds oIds hinv si hsi
      exact hinv si hsi
  | cons svc rest ih =>
      intro agg ctr els cIds oIds hinv si hsi
      simp only [uniCompsLoop] at hsi ⊢
      refine ih agg _ _ _ _ ?_ si hsi
      intro sj hsj
      rcases mem_insertD _ _ _ _ hsj with rfl | hold
      · exact ⟨_, by
          rw [elemsList_append]
          exact List.mem_append_right _ (mem_elemsList_of_mem (List.Mem.head _)
            (self_mem_elemsIn _)), by rfl, by rfl⟩
      · obtain ⟨e, he, h1, h2⟩ := hinv sj hold
        refine ⟨e, ?_, h1, h2⟩
        rw [elemsList_append]
        exact List.mem_append_left _ he

theorem uniNodesLoop_node_inv :
    ∀ (names : List String) (ctr : Nat) (els : List XElem) (ids : List (String × Nat)),
      (∀ si ∈ ids, ∃ e ∈ elemsList els, e.idn = si.2 ∧ e.typ = "uml:Node") →
      ∀ si ∈ (uniNodesLoop names ctr els ids).2.1,
        ∃ e ∈ elemsList (uniNodesLoop names ctr els ids).1,
          e.idn = si.2 ∧ e.typ = "uml:Node" := by
  intro names
  induction names with
  | nil =>
      intro ctr els ids hinv si hsi
      exact hinv si hsi
  | cons n rest ih =>
      intro ctr els ids hinv si hsi
      simp only [uniNodesLoop] at hsi ⊢
      refine ih _ _ _ ?_ si hsi
      intro sj hsj
      rcases mem_insertD _ _ _ _ hsj with rfl | hold
      · exact ⟨_, by
          rw [elemsList_append]
          exact List.mem_append_right _ (mem_elemsList_of_mem (List.Mem.head _)
            (self_mem_elemsIn _)), by rfl, by rfl⟩
      · obtain ⟨e, he, h1, h2⟩ := hinv sj hold
        refine ⟨e, ?_, h1, h2⟩
        rw [elemsList_append]
        exact List.mem_append_left _ he

theorem uniMsgsLoop_els_mono :
    ∀ (spans : List Span) (t : Trace) (s2s : List (String × String))
      (llIds : List (String × Nat)) (opIds : List (String × List (String × Nat)))
      (k ctr : Nat) (els : List XElem) (msgIds : List (Nat × Nat × Bool)),
      ∃ suf, (uniMsgsLoop spans t s2s llIds opIds k ctr els msgIds).1 = els ++ suf := by
  intro spans
  induction spans with
  | nil =>
      intro t s2s llIds opIds k ctr els msgIds
      exact ⟨[], (List.append_nil els).symm⟩
  | cons sp rest ih =>
      intro t s2s llIds opIds k ctr els msgIds
      simp only [uniMsgsLoop]
      split
      · exact ih _ _ _ _ _ _ _ _
      · split
        · exact ih _ _ _ _ _ _ _ _
        · split
          · exact ih _ _ _ _ _ _ _ _
          · split
            · obtain ⟨suf, hsuf⟩ := ih t s2s llIds opIds (k + 1) (ctr + 3) (els ++ _) _
              exact ⟨_, by rw [hsuf, List.append_assoc]⟩
            · exact ih _ _ _ _ _ _ _ _

theorem uniMsgsLoop_msg_inv :
    ∀ (spans : List Span) (t : Trace) (s2s : List (String × String))
      (llIds : List (String × Nat)) (opIds : List (String × List (String × Nat)))
      (k ctr : Nat) (els : List XElem) (msgIds : List (Nat × Nat × Bool)),
      ∀ mi ∈ (uniMsgsLoop spans t s2s llIds opIds k ctr els msgIds).2.1,
        mi ∈ msgIds ∨
        ∃ e ∈ elemsList (uniMsgsLoop spans t s2s llIds opIds k ctr els msgIds).1,
          e.idn = mi.1 ∧ e.tag = "message" := by
  intro spans
  induction spans with
  | nil =>
      intro t s2s llIds opIds k ctr els msgIds mi hmi
      exact Or.inl hmi
  | cons sp rest ih =>
      intro t s2s llIds opIds k ctr els msgIds mi hmi
      rcases hps : sp.get_parent_span_id with _ | pid
      · simp only [uniMsgsLoop, hps] at hmi ⊢
        exact ih _ _ _ _ _ _ _ _ mi hmi
      · rcases hl : lookupD s2s pid with _ | psvc
        · simp only [uniMsgsLoop, hps, hl] at hmi ⊢
          exact ih _ _ _ _ _ _ _ _ mi hmi
        · by_cases hcond : psvc = "" ∨ psvc = t.get_service_name sp
          · simp only [uniMsgsLoop, hps, hl, if_pos hcond] at hmi ⊢
            exact ih _ _ _ _ _ _ _ _ mi hmi
          · rcases hf : lookupD llIds psvc with _ | fl
            · simp only [uniMsgsLoop, hps, hl, if_neg hcond, hf] at hmi ⊢
              exact ih _ _ _ _ _ _ _ _ mi hmi
            · rcases ht : lookupD llIds (t.get_service_name sp) with _ | tl
              · simp only [uniMsgsLoop, hps, hl, if_neg hcond, hf, ht] at hmi ⊢
                exact ih _ _ _ _ _ _ _ _ mi hmi
              · simp only [uniMsgsLoop, hps, hl, if_neg hcond, hf, ht] at hmi ⊢
                rcases ih t s2s llIds opIds (k + 1) (ctr + 3) (els ++ _) (msgIds ++ _)
                    mi hmi with h | h
                · rcases List.mem_append.mp h with h1 | h1
                  · exact Or.inl h1
                  · simp only [List.mem_singleton] at h1
                    subst h1
                    obtain ⟨suf, hsuf⟩ := uniMsgsLoop_els_mono rest t s2s llIds opIds
                      (k + 1) (ctr + 3) (els ++ _) (msgIds ++ _)
                    exact Or.inr ⟨_, by
                      rw [hsuf, elemsList_append, elemsList_append]
                      exact List.mem_append_left _ (List.mem_append_right _
                        (mem_elemsList_of_mem
                          (List.Mem.tail _ (List.Mem.tail _ (List.Mem.head _)))
                          (self_mem_elemsIn _))), by rfl, by rfl⟩
                · exact Or.inr h

theorem uniTracesLoop_inv :
    ∀ (traces : List Trace) (i : Nat) (opIds : List (String × List (String × Nat)))
      (ctr : Nat) (els : List XElem) (interIds : List (String × Nat))
      (msgIds : List (Nat × Nat × Bool)),
      (∀ si ∈ interIds, ∃ e ∈ elemsList els, e.idn = si.2 ∧ e.typ = "uml:Interaction") →
      (∀ mi ∈ msgIds, ∃ e ∈ elemsList els, e.idn = mi.1 ∧ e.tag = "message") →
      (∀ si ∈ (uniTracesLoop traces i opIds ctr els interIds msgIds).2.1,
        ∃ e ∈ elemsList (uniTracesLoop traces i opIds ctr els interIds msgIds).1,
          e.idn = si.2 ∧ e.typ = "uml:Interaction") ∧
      (∀ mi ∈ (uniTracesLoop traces i opIds ctr els interIds msgIds).2.2.1,
        ∃ e ∈ elemsList (uniTracesLoop traces i opIds ctr els interIds msgIds).1,
          e.idn = mi.1 ∧ e.tag = "message") := by
  intro traces
  induction traces with
  | nil =>
      intro i opIds ctr els interIds msgIds h1 h2
      exact ⟨h1, h2⟩
  | cons t rest ih =>
      intro i opIds ctr els interIds msgIds h1 h2
      simp only [uniTracesLoop]
      refine ih _ _ _ _ _ _ ?_ ?_
      · intro sj hsj
        rcases mem_insertD _ _ _ _ hsj with rfl | hold
        · exact ⟨_, by
            rw [elemsList_append]
            exact List.mem_append_right _ (mem_elemsList_of_mem (List.Mem.head _)
              (mem_elemsIn_of_child (List.Mem.head _) (self_mem_elemsIn _))),
            by rfl, by rfl⟩
        · obtain ⟨e, he, hx1, hx2⟩ := h1 sj hold
          refine ⟨e, ?_, hx1, hx2⟩
          rw [elemsList_append]
          exact List.mem_append_left _ he
      · intro mi hmi
        rcases uniMsgsLoop_msg_inv _ _ _ _ _ _ _ _ _ mi hmi with hold | ⟨e, he, hx1, hx2⟩
        · obtain ⟨e, he, hx1, hx2⟩ := h2 mi hold
          refine ⟨e, ?_, hx1, hx2⟩
          rw [elemsList_append]
          exact List.mem_append_left _ he
        · refine ⟨e, ?_, hx1, hx2⟩
          rw [elemsList_append]
          refine List.mem_append_right _ (mem_elemsList_of_mem (List.Mem.head _) ?_)
          refine mem_elemsIn_of_child (List.Mem.head _) ?_
          refine mem_elemsIn_of_elemsList ?_
          show e ∈ elemsList (_ ++ _)
          rw [elemsList_append]
          exact List.mem_append_right _ he

/-! ## The MARTE annotation records (towards C1) -/

theorem rtUnitAnns_spec :
    ∀ (cIds : List (String × Nat)) (ctr : Nat), ∀ a ∈ (rtUnitAnns cIds ctr).1,
      a.tag = "MARTE_GRM:RtUnit" ∧
      ∃ si ∈ cIds, a.refs = [("base_BehavioredClassifier", si.2)] := by
  intro cIds
  induction cIds with
  | nil =>
      intro ctr a ha
      cases ha
  | cons p rest ih =>
      intro ctr a ha
      obtain ⟨svc, cid⟩ := p
      simp only [rtUnitAnns] at ha
      rcases List.mem_cons.mp ha with rfl | hm
      · exact ⟨rfl, (svc, cid), List.Mem.head _, rfl⟩
      · obtain ⟨ht, si, hsi, hr⟩ := ih (ctr + 1) a hm
        exact ⟨ht, si, List.Mem.tail _ hsi, hr⟩

theorem gaExecHostAnns_spec :
    ∀ (nIds : List (String × Nat)) (ctr : Nat), ∀ a ∈ (gaExecHostAnns nIds ctr).1,
      a.tag = "MARTE_GRM:GaExecHost" ∧
      ∃ si ∈ nIds, a.refs = [("base_Classifier", si.2)] := by
  intro nIds
  induction nIds with
  | nil =>
      intro ctr a ha
      cases ha
  | cons p rest ih =>
      intro ctr a ha
      obtain ⟨n, nid⟩ := p
      simp only [gaExecHostAnns] at ha
      rcases List.mem_cons.mp ha with rfl | hm
      · exact ⟨rfl, (n, nid), List.Mem.head _, rfl⟩
      · obtain ⟨ht, si, hsi, hr⟩ := ih (ctr + 1) a hm
        exact ⟨ht, si, List.Mem.tail _ hsi, hr⟩

theorem gaContextAnns_spec :
    ∀ (iIds : List (String × Nat)) (ctr : Nat), ∀ a ∈ (gaContextAnns iIds ctr).1,
      a.tag = "MARTE_GQAM:GaAnalysisContext" ∧
      ∃ si ∈ iIds, a.refs = [("base_NamedElement", si.2)] := by
  intro iIds
  induction iIds with
  | nil =>
      intro ctr a ha
      cases ha
  | cons p rest ih =>
      intro ctr a ha
      obtain ⟨n, iid⟩ := p
      simp only [gaContextAnns] at ha
      rcases List.mem_cons.mp ha with rfl | hm
      · exact ⟨rfl, (n, iid), List.Mem.head _, rfl⟩
      · obtain ⟨ht, si, hsi, hr⟩ := ih (ctr + 1) a hm
        exact ⟨ht, si, List.Mem.tail _ hsi, hr⟩

theorem paStepAnns_spec :
    ∀ (mIds : List (Nat × Nat × Bool)) (ctr : Nat), ∀ a ∈ (paStepAnns mIds ctr).1,
      a.tag = "MARTE_PAM:PaStep" ∧
      ∃ mi ∈ mIds, a.refs = [("base_NamedElement", mi.1)] := by
  intro mIds
  induction mIds with
  | nil =>
      intro ctr a ha
      cases ha
  | cons p rest ih =>
      intro ctr a ha
      obtain ⟨mid, us, isAsync⟩ := p
      simp only [paStepAnns] at ha
      rcases List.mem_cons.mp ha with rfl | hm
      · exact ⟨rfl, (mid, us, isAsync), List.Mem.head _, rfl⟩
      · obtain ⟨ht, mi, hmi, hr⟩ := ih (ctr + 1) a hm
        exact ⟨ht, mi, List.Mem.tail _ hmi, hr⟩

theorem marteAnns_spec (regs : UniRegs) (ctr : Nat) :
    ∀ a ∈ marteAnns regs ctr,
      (a.tag = "MARTE_GRM:RtUnit" ∧
        ∃ si ∈ regs.compIds, a.refs = [("base_BehavioredClassifier", si.2)]) ∨
      (a.tag = "MARTE_GRM:GaExecHost" ∧
        ∃ si ∈ regs.nodeIds, a.refs = [("base_Classifier", si.2)]) ∨
      (a.tag = "MARTE_GQAM:GaAnalysisContext" ∧
        ∃ si ∈ regs.interIds, a.refs = [("base_NamedElement", si.2)]) ∨
      (a.tag = "MARTE_PAM:PaStep" ∧
        ∃ mi ∈ regs.msgIds, a.refs = [("base_NamedElement", mi.1)]) := by
  intro a ha
  simp only [marteAnns] at ha
  rcases List.mem_append.mp ha with h | h
  · rcases List.mem_append.mp h with h | h
    · rcases List.mem_append.mp h with h | h
      · exact Or.inl (rtUnitAnns_spec _ _ a h)
      · exact Or.inr (Or.inl (gaExecHostAnns_spec _ _ a h))
    · exact Or.inr (Or.inr (Or.inl (gaContextAnns_spec _ _ a h)))
  · exact Or.inr (Or.inr (Or.inr (paStepAnns_spec _ _ a h)))

theorem unifiedStructural_regs :
    ∀ (traces : List Trace) (m : XElem) (regs : UniRegs) (c : Nat),
      unifiedStructural traces = some (m, regs, c) →
      (∀ si ∈ regs.compIds, ∃ e ∈ elemsIn m, e.idn = si.2 ∧ e.typ = "uml:Component") ∧
      (∀ si ∈ regs.nodeIds, ∃ e ∈ elemsIn m, e.idn = si.2 ∧ e.typ = "uml:Node") ∧
      (∀ si ∈ regs.interIds, ∃ e ∈ elemsIn m, e.idn = si.2 ∧ e.typ = "uml:Interaction") ∧
      (∀ mi ∈ regs.msgIds, ∃ e ∈ elemsIn m, e.idn = mi.1 ∧ e.tag = "message") := by
  intro traces m regs c h
  simp only [unifiedStructural] at h
  split at h
  · cases h
  next resA hA =>
    injection h with h'
    injection h' with hM h''
    injection h'' with hR hC
    subst hM
    subst hR
    subst hC
    refine ⟨?_, ?_, ?_, ?_⟩
    · intro si hsi
      obtain ⟨e, he, h1, h2⟩ :=
        uniCompsLoop_comp_inv _ _ _ _ _ _ (fun sj hsj => absurd hsj (List.not_mem_nil _))
          si hsi
      refine ⟨e, ?_, h1, h2⟩
      refine mem_elemsIn_of_child (List.Mem.tail _ (List.Mem.head _)) ?_
      exact mem_elemsIn_of_elemsList he
    · intro si hsi
      obtain ⟨e, he, h1, h2⟩ :=
        uniNodesLoop_node_inv _ _ _ _ (fun sj hsj => absurd hsj (List.not_mem_nil _))
          si hsi
      refine ⟨e, ?_, h1, h2⟩
      refine mem_elemsIn_of_child
        (List.Mem.tail _ (List.Mem.tail _ (List.Mem.tail _ (List.Mem.head _)))) ?_
      refine mem_elemsIn_of_elemsList ?_
      show e ∈ elemsList (_ ++ _)
      rw [elemsList_append]
      exact List.mem_append_left _ he
    · intro si hsi
      obtain ⟨e, he, h1, h2⟩ :=
        (uniTracesLoop_inv _ _ _ _ _ _ _
          (fun sj hsj => absurd hsj (List.not_mem_nil _))
          (fun mj hmj => absurd hmj (List.not_mem_nil _))).1 si hsi
      refine ⟨e, ?_, h1, h2⟩
      refine mem_elemsIn_of_child
        (List.Mem.tail _ (List.Mem.tail _ (List.Mem.tail _ (List.Mem.tail _
          (List.Mem.head _))))) ?_
      exact mem_elemsIn_of_elemsList he
    · intro mi hmi
      obtain ⟨e, he, h1, h2⟩ :=
        (uniTracesLoop_inv _ _ _ _ _ _ _
          (fun sj hsj => absurd hsj (List.not_mem_nil _))
          (fun mj hmj => absurd hmj (List.not_mem_nil _))).2 mi hmi
      refine ⟨e, ?_, h1, h2⟩
      refine mem_elemsIn_of_child
        (List.Mem.tail _ (List.Mem.tail _ (List.Mem.tail _ (List.Mem.tail _
          (List.Mem.head _))))) ?_
      exact mem_elemsIn_of_elemsList he

/-- C1: In the unified generator, every MARTE stereotype-annotation record
is appended at the XMI root after the model element, and every identifier
reference it carries points at an element that exists inside the structural
model tree, of the kind the stereotype targets (Component for RtUnit, Node
for GaExecHost, Interaction for GaAnalysisContext, message for PaStep) —
so the document contains no dangling annotation references. -/
theorem c1_marte_annotations_resolve :
    ∀ (traces : List Trace) (root : XElem), unifiedGenerate traces = some root →
      ∃ model anns, root.children = model :: anns ∧
        ∀ a ∈ anns, a.tag ∈ marteTags ∧
          ∀ kr ∈ a.refs, ∃ e ∈ elemsIn model, e.idn = kr.2 ∧ annTargetOk a.tag e := by
  intro traces root h
  unfold unifiedGenerate at h
  split at h
  · cases h
  · split at h
    · cases h
    next m regs c heq =>
      injection h with hroot
      subst hroot
      obtain ⟨hcomp, hnode, hinter, hmsg⟩ := unifiedStructural_regs traces m regs c heq
      refine ⟨m, marteAnns regs c, rfl, ?_⟩
      intro a ha
      rcases marteAnns_spec regs c a ha with ⟨htag, si, hsi, hrefs⟩ |
        ⟨htag, si, hsi, hrefs⟩ | ⟨htag, si, hsi, hrefs⟩ | ⟨htag, mi, hmi, hrefs⟩
      · refine ⟨by rw [htag]; decide, ?_⟩
        intro kr hkr
        rw [hrefs] at hkr
        simp only [List.mem_singleton] at hkr
        subst hkr
        obtain ⟨e, he, h1, h2⟩ := hcomp si hsi
        refine ⟨e, he, h1, ?_⟩
        rw [htag]
        exact ⟨fun _ => h2, fun hh => absurd hh (by decide),
          fun hh => absurd hh (by decide), fun hh => absurd hh (by decide)⟩
      · refine ⟨by rw [htag]; decide, ?_⟩
        intro kr hkr
        rw [hrefs] at hkr
        simp only [List.mem_singleton] at hkr
        subst hkr
        obtain ⟨e, he, h1, h2⟩ := hnode si hsi
        refine ⟨e, he, h1, ?_⟩
        rw [htag]
        exact ⟨fun hh => absurd hh (by decide), fun _ => h2,
          fun hh => absurd hh (by decide), fun hh => absurd hh (by decide)⟩
      · refine ⟨by rw [htag]; decide, ?_⟩
        intro kr hkr
        rw [hrefs] at hkr
        simp only [List.mem_singleton] at hkr
        subst hkr
        obtain ⟨e, he, h1, h2⟩ := hinter si hsi
        refine ⟨e, he, h1, ?_⟩
        rw [htag]
        exact ⟨fun hh => absurd hh (by decide), fun hh => absurd hh (by decide),
          fun _ => h2, fun hh => absurd hh (by decide)⟩
      · refine ⟨by rw [htag]; decide, ?_⟩
        intro kr hkr
        rw [hrefs] at hkr
        simp only [List.mem_singleton] at hkr
        subst hkr
        obtain ⟨e, he, h1, h2⟩ := hmsg mi hmi
        refine ⟨e, he, h1, ?_⟩
        rw [htag]
        exact ⟨fun hh => absurd hh (by decide), fun hh => absurd hh (by decide),
          fun hh => absurd hh (by decide), fun _ => h2⟩

/-- Witness for C1 at the §8 trace: the generated unified document satisfies
the annotation-resolution property. -/
theorem c1_marte_annotations_resolve_witness :
    ∃ root, unifiedGenerate [t8] = some root ∧
      ∃ model anns, root.children = model :: anns ∧
        ∀ a ∈ anns, a.tag ∈ marteTags ∧
          ∀ kr ∈ a.refs, ∃ e ∈ elemsIn model, e.idn = kr.2 ∧ annTargetOk a.tag e := by
  obtain ⟨d, hd⟩ : ∃ d, unifiedGenerate [t8] = some d := ⟨_, rfl⟩
  exact ⟨d, hd, c1_marte_annotations_resolve [t8] d hd⟩

end JaegerUml
